import Mathlib

/-
Shallow embedding of the hpat span-matching engine (src/hpat/match.py,
src/hpat/data_sequence.py, src/hpat/extractor.py).

Conventions of the embedding:
* Python dicts become association lists (insertion ordered, like dict).
* Python sets of strings become `Finset String` or deduplicated lists.
* Python floats (match weights) become `ℚ`; only `min` and comparisons
  are ever applied to them.
* Functions that can raise in Python return `Option`/`Except`.
* The recursive `revoke_match` is embedded with explicit fuel; theorems
  quantify over all sufficiently large fuel values.
* `uuid.uuid4()` generated identifiers are passed in as parameters.
* The opaque `structure` capture tree of `Match`/`MatchState` is not
  modelled: no claim mentions it and no modelled operation inspects it.
-/

/-- One recognized span (class `Match` in src/hpat/match.py). -/
structure Match where
  concept : String
  value : String
  size : Nat
  start_idx : Nat
  id : String
  assumed : Bool := false
  depends_on_matches : List String := []
  extractions : List (String × List String) := []
  weight : ℚ := 1
  deriving Repr, DecidableEq, Inhabited

/-- One slot of the input sequence (class `DataElement`). -/
structure DataElement where
  value : Option String := none
  matchList : List Match := []
  disabled : Bool := false
  deriving Repr, DecidableEq, Inhabited

/-- The positional store with registry and cached extractions
(class `DataSequence`). -/
structure DataSequence where
  value : String
  elements : List DataElement
  extractions : List (String × List String) := []
  consolidated : Bool := false
  match_by_id : List (String × Match) := []
  deriving Repr, DecidableEq, Inhabited

/-- `d[k] = v` on a Python dict modelled as an association list. -/
def registryInsert (r : List (String × Match)) (k : String) (v : Match) :
    List (String × Match) :=
  if r.any fun p => p.1 == k then r.map fun p => if p.1 == k then (k, v) else p
  else r ++ [(k, v)]

/-- `d.pop(k, None)` on a Python dict modelled as an association list. -/
def registryErase (r : List (String × Match)) (k : String) :
    List (String × Match) :=
  r.filter fun p => p.1 != k

/-- `d[k]` lookup (`None` when the key is missing). -/
def registryLookup (r : List (String × Match)) (k : String) : Option Match :=
  (r.find? fun p => p.1 == k).map fun p => p.2

/-- The keys of the registry, in insertion order. -/
def regKeys (r : List (String × Match)) : List String := r.map fun p => p.1

/-- All match occurrences stored in the positions, in position order then
intra-position order (the traversal order used throughout the source). -/
def DataSequence.occurrences (s : DataSequence) : List Match :=
  s.elements.flatMap fun e => e.matchList

/-- The ids of all stored occurrences, with multiplicity. -/
def occIdsList (s : DataSequence) : List String :=
  s.occurrences.map fun m => m.id

/-- `DataSequence.get_all_match_ids` (data_sequence.py line 175). -/
def DataSequence.get_all_match_ids (s : DataSequence) : Finset String :=
  (occIdsList s).toFinset

/-- `Match.dependencies_present` (match.py line 41): every direct
dependency id occurs somewhere in the sequence. -/
def Match.dependencies_present (m : Match) (s : DataSequence) : Bool :=
  m.depends_on_matches.all fun d => decide (d ∈ s.get_all_match_ids)

/-- `DataElement.contains_match` (data_sequence.py line 14): the
equivalence test used for deduplication. -/
def DataElement.contains_match (e : DataElement) (m : Match) : Bool :=
  e.matchList.any fun saved =>
    if saved.concept != m.concept then false
    else if saved.size != m.size then false
    else if saved.start_idx != m.start_idx then false
    else if ["Sentence", "MakesSense"].contains m.concept
            && saved.depends_on_matches != m.depends_on_matches then false
    else true

/-- One step of `DataSequence.add_match`'s span loop (line 71-75):
`DataElement.add_match` on position `i` plus the registry update. -/
def DataSequence.addAtPos (s : DataSequence) (i : Nat) (m : Match) :
    Bool × DataSequence :=
  match s.elements.get? i with
  | none => (false, s)
  | some e =>
    if e.contains_match m then (false, s)
    else (true,
      { s with
        elements := s.elements.set i { e with matchList := e.matchList ++ [m] },
        match_by_id := registryInsert s.match_by_id m.id m })

/-- `DataSequence.add_match` (data_sequence.py line 62). Returns `none`
for the `IndexError` raised when the span exceeds the sequence. -/
def DataSequence.add_match (s : DataSequence) (m : Match) :
    Option (Bool × DataSequence) :=
  if m.dependencies_present s then
    if m.start_idx + m.size ≤ s.elements.length then
      some ((List.range m.size).foldl
        (fun acc idx =>
          let r := acc.2.addAtPos (m.start_idx + idx) m
          (acc.1 || r.1, r.2))
        (false, { s with consolidated := false }))
    else none
  else some (false, s)

/-- The `to_revoke` list of `DataSequence.revoke_match` (lines 83-88):
ids of stored matches whose direct dependency list contains `mid`. -/
def collectToRevoke (s : DataSequence) (mid : String) : List String :=
  s.elements.flatMap fun e =>
    (e.matchList.filter fun m => mid ∈ m.depends_on_matches).map fun m => m.id

/-- The removal pass of `DataSequence.revoke_match` (lines 84-94): drops
every stored occurrence that hit the `elif match_id == match.id` branch
and pops the registry entry whenever at least one occurrence was
removed. -/
def removeRevoked (s : DataSequence) (mid : String) : DataSequence :=
  { s with
    elements := s.elements.map fun e =>
      { e with matchList := e.matchList.filter fun m =>
          !(mid ∉ m.depends_on_matches && m.id == mid) },
    match_by_id :=
      if s.elements.any fun e => e.matchList.any fun m =>
          mid ∉ m.depends_on_matches && m.id == mid
      then registryErase s.match_by_id mid
      else s.match_by_id }

/-- `DataSequence.revoke_match` (data_sequence.py line 78), with explicit
fuel for the cascading recursion (the recursive calls use the default
`cascade=True`). -/
def revokeFuel : Nat → DataSequence → String → Bool → DataSequence
  | 0, s, _, _ => s
  | fuel + 1, s, mid, cascade =>
    let s0 := { s with consolidated := false }
    let toRevoke := collectToRevoke s0 mid
    let s1 := removeRevoked s0 mid
    if cascade then toRevoke.foldl (fun acc y => revokeFuel fuel acc y true) s1
    else s1

/-- The dedup-by-id collection loop of `DataSequence.consolidate`
(lines 107-114), keeping the first occurrence of each id. -/
def dedupById : List Match → List String → List Match
  | [], _ => []
  | m :: ms, seen =>
    if m.id ∈ seen then dedupById ms seen
    else m :: dedupById ms (m.id :: seen)

/-- The deduplicated matches of a sequence in discovery order. -/
def collectMatches (s : DataSequence) : List Match :=
  dedupById s.occurrences []

/-- `self.extractions[key].extend(values)` on the defaultdict. -/
def extendAt (r : List (String × List String)) (k : String)
    (vs : List String) : List (String × List String) :=
  if r.any fun p => p.1 == k then
    r.map fun p => if p.1 == k then (p.1, p.2 ++ vs) else p
  else r ++ [(k, vs)]

/-- The merge loop of `DataSequence.consolidate` (lines 116-118). -/
def mergeExtractions (ms : List Match) : List (String × List String) :=
  ms.foldl (fun r m => m.extractions.foldl (fun r2 kv => extendAt r2 kv.1 kv.2) r) []

/-- `DataSequence.consolidate` (data_sequence.py line 100). -/
def DataSequence.consolidate (s : DataSequence) : DataSequence :=
  if s.consolidated then s
  else { s with
    extractions := mergeExtractions (collectMatches s),
    consolidated := true }

/-- `DataSequence.extract` (data_sequence.py line 143): raises unless
consolidated, else `self.extractions.get(key, [])`. -/
def DataSequence.extract (s : DataSequence) (k : String) :
    Except String (List String) :=
  if !s.consolidated then Except.error "Must consolidate first"
  else Except.ok ((((s.extractions.find? fun p => p.1 == k).map fun p => p.2).getD []))

/-- Lexicographic code-point comparison, the order Python's `sorted`
uses on strings. -/
def charListLe : List Char → List Char → Bool
  | [], _ => true
  | _ :: _, [] => false
  | x :: xs, y :: ys =>
    if x.toNat < y.toNat then true
    else if y.toNat < x.toNat then false
    else charListLe xs ys

/-- String comparison by code points. -/
def strLe (a b : String) : Bool := charListLe a.toList b.toList

/-- Ascending insertion of a string into a sorted list. -/
def insertSorted (x : String) : List String → List String
  | [] => [x]
  | y :: ys => if strLe x y then x :: y :: ys else y :: insertSorted x ys

/-- Python's `sorted` on a list of strings. -/
def sortStrings (l : List String) : List String := l.foldr insertSorted []

/-- `DataSequence.find_dependant_matches` (data_sequence.py line 157):
`sorted(list(set(result)))` over the ids of direct dependants. -/
def DataSequence.find_dependant_matches (s : DataSequence) (mid : String) :
    List String :=
  sortStrings (collectToRevoke s mid).dedup

/-- `DataSequence.get_dependant_matches` (data_sequence.py line 188).
The loop body evaluates `match_id.id` with `match_id : str`, which
raises `AttributeError` the first time a dependant is found; when no
stored match depends on `mid` the loop body never runs and the empty
set is returned. -/
def DataSequence.get_dependant_matches (s : DataSequence) (mid : String) :
    Except String (Finset String) :=
  if s.elements.any fun e => e.matchList.any fun m => mid ∈ m.depends_on_matches
  then Except.error "AttributeError: str object has no attribute id"
  else Except.ok ∅

/-- The concept-hierarchy lookup service (external collaborator). -/
structure HierarchyProvider where
  getParents : String → List String
  getChildren : String → List String

/-- The id-collection loop of `DataSequence.drop_matches` (lines 252-262),
deduplicated as the Python set is. -/
def dropCollect (s : DataSequence) (concepts : List String)
    (hierarchy : Option HierarchyProvider) : List String :=
  (s.elements.enum.flatMap fun p =>
    p.2.matchList.filterMap fun m =>
      if m.start_idx ≠ p.1 then none
      else if m.concept ∈ concepts then some m.id
      else
        match hierarchy with
        | some h =>
          if (h.getParents m.concept).any (fun c => c ∈ concepts) then some m.id
          else none
        | none => none).dedup

/-- `DataSequence.drop_matches` (data_sequence.py line 251). Note that
the source passes `cascade=False` to `revoke_match` unconditionally, so
the `cascade` parameter is accepted but never used; one unit of fuel is
exact for a non-cascading revocation. -/
def DataSequence.drop_matches (s : DataSequence) (concepts : List String)
    (hierarchy : Option HierarchyProvider) (cascade : Bool) : DataSequence :=
  (dropCollect s concepts hierarchy).foldl
    (fun acc mid => revokeFuel 1 acc mid false) s

/-- `DataSequence.from_string` (data_sequence.py line 165) together with
`__post_init__`'s registry fill; the uuid of position `i`'s seed match
is `ids[i]`. -/
def DataSequence.from_string (text : String) (ids : List String) :
    DataSequence :=
  let elems : List DataElement := (text.toList.zip ids).enum.map fun p =>
    { value := some p.2.1.toString,
      matchList := [{ concept := "Character", value := p.2.1.toString,
                      size := 1, start_idx := p.1, id := p.2.2 }] }
  { value := text,
    elements := elems,
    match_by_id := elems.foldl
      (fun r e => e.matchList.foldl (fun r2 m => registryInsert r2 m.id m) r) [] }

/-- A speculative sub-concept recorded during matching
(class `MatchAssumption` in src/hpat/match.py). -/
structure MatchAssumption where
  sequence_start_idx : Nat
  sequence_end_idx : Nat
  assumed_concept : String
  weight : ℚ := 1
  deriving Repr, DecidableEq

/-- The per-attempt derivation state (class `MatchState`); the start/end
bounds are `Option` because the source initializes them to `None`. -/
structure MatchState where
  sequence_idx : Nat := 0
  pattern_idx : Nat := 0
  sequence_start_idx : Option Nat := none
  sequence_end_idx : Option Nat := none
  many_optional : Bool := false
  extractions : List (String × List String) := []
  assumptions : List MatchAssumption := []
  depends_on_matches : List String := []

/-- Python slice `v[a:b]` for natural bounds. -/
def substr (v : String) (a b : Nat) : String :=
  String.mk ((v.toList.drop a).take (b - a))

/-- The weight loop of `MatchState.get_matches` (match.py lines 128-130);
`none` models the `KeyError` on a missing registry id. -/
def depWeightFold (s : DataSequence) (deps : List String) (w : ℚ) : Option ℚ :=
  deps.foldl
    (fun acc mid =>
      match acc, registryLookup s.match_by_id mid with
      | some w2, some m => some (min w2 m.weight)
      | _, _ => none)
    (some w)

/-- `MatchState.get_matches` (match.py line 127): the finalized main
match followed by the assumed matches. The uuids the source draws are
passed as `mainId` and `asmpIds`. -/
def MatchState.get_matches (st : MatchState) (s : DataSequence)
    (concept : String) (weight : ℚ) (mainId : String)
    (asmpIds : List String) : Option (List Match) :=
  match depWeightFold s st.depends_on_matches weight,
        st.sequence_start_idx, st.sequence_end_idx with
  | some w, some a, some b =>
    let mainMatch : Match :=
      { concept := concept,
        value := substr s.value a b,
        size := b - a,
        start_idx := a,
        id := mainId,
        assumed := false,
        depends_on_matches := st.depends_on_matches,
        extractions := st.extractions,
        weight := w }
    some (mainMatch :: (st.assumptions.zip asmpIds).map fun p =>
      { concept := p.1.assumed_concept,
        value := substr s.value p.1.sequence_start_idx p.1.sequence_end_idx,
        size := p.1.sequence_end_idx - p.1.sequence_start_idx,
        start_idx := p.1.sequence_start_idx,
        id := p.2,
        assumed := true,
        depends_on_matches := [mainId],
        weight := p.1.weight })
  | _, _, _ => none

/-- A pattern rule (external collaborator `Pattern`): its optional
`inside` constraint and its `match` method, opaque to the engine. -/
structure Pattern where
  inside : Option String
  matchFn : DataSequence → MatchState → HierarchyProvider → List Match

/-- The extraction engine (class `Extractor` in src/hpat/extractor.py). -/
structure Extractor where
  patterns : List Pattern
  hierarchy : HierarchyProvider
  single_concepts : List String := []

/-- `Extractor.check_inside_start_idx` (extractor.py line 55). -/
def Extractor.check_inside_start_idx (ex : Extractor) (s : DataSequence)
    (idx : Nat) (c : String) : Bool :=
  (s.elements.getD idx default).matchList.any fun m =>
    c == m.concept || (ex.hierarchy.getParents m.concept).contains c

/-- `Extractor.check_match_is_inside` (extractor.py line 62). -/
def Extractor.check_match_is_inside (ex : Extractor) (s : DataSequence)
    (m : Match) (c : String) : Bool :=
  (s.elements.getD m.start_idx default).matchList.any fun other =>
    (c == other.concept || (ex.hierarchy.getParents other.concept).contains c)
      && other.start_idx == m.start_idx && other.size == m.size

/-- The inner `for match in matches` loop of `Extractor.apply_once`
(extractor.py lines 47-51): filter by `check_match_is_inside` when an
inside constraint is declared, submit survivors to `add_match`. `none`
propagates an `IndexError` from `add_match`. -/
def Extractor.submitMatches (ex : Extractor) (insideC : Option String) :
    Option (Bool × DataSequence) → List Match → Option (Bool × DataSequence)
  | none, _ => none
  | some acc, [] => some acc
  | some acc, m :: ms =>
    let skip :=
      match insideC with
      | some c => !ex.check_match_is_inside acc.2 m c
      | none => false
    if skip then ex.submitMatches insideC (some acc) ms
    else
      match acc.2.add_match m with
      | some r => ex.submitMatches insideC (some (acc.1 || r.1, r.2)) ms
      | none => none

/-- One (position, pattern) step of `Extractor.apply_once` (lines 38-51):
skip the pattern when its inside constraint rejects the start position,
otherwise invoke it on a fresh state anchored there and submit its
matches. -/
def Extractor.stepPattern (ex : Extractor) (s : DataSequence)
    (start_idx : Nat) (p : Pattern) : Option (Bool × DataSequence) :=
  match p.inside with
  | some c =>
    if ex.check_inside_start_idx s start_idx c then
      ex.submitMatches (some c) (some (false, s))
        (p.matchFn s { sequence_idx := start_idx } ex.hierarchy)
    else some (false, s)
  | none =>
    ex.submitMatches none (some (false, s))
      (p.matchFn s { sequence_idx := start_idx } ex.hierarchy)

/-- `Extractor.apply_once` (extractor.py line 29). -/
def Extractor.applyOnce (ex : Extractor) (s : DataSequence) :
    Option (Bool × DataSequence) :=
  (List.range s.elements.length).foldl
    (fun acc idx =>
      match acc with
      | none => none
      | some bs =>
        if (bs.2.elements.getD idx default).disabled then some bs
        else
          ex.patterns.foldl
            (fun acc2 p =>
              match acc2 with
              | none => none
              | some bs2 =>
                match ex.stepPattern bs2.2 idx p with
                | some bs3 => some (bs2.1 || bs3.1, bs3.2)
                | none => none)
            (some bs))
    (some (false, s))

/-- No stored match lists its own id among its direct dependencies.
Guaranteed for states reachable through `add_match` (a fresh uuid cannot
already be stored) and required for the cascade recursion to terminate. -/
def noSelfDep (s : DataSequence) : Prop :=
  ∀ m ∈ s.occurrences, m.id ∉ m.depends_on_matches

instance (s : DataSequence) : Decidable (noSelfDep s) :=
  inferInstanceAs (Decidable (∀ m ∈ s.occurrences, m.id ∉ m.depends_on_matches))

/-- Distinct stored matches never share an id (uuid uniqueness). -/
def uniqueIds (s : DataSequence) : Prop :=
  ∀ m ∈ s.occurrences, ∀ m2 ∈ s.occurrences, m.id = m2.id → m = m2

/-- Registry-position consistency: the registry keys are exactly the ids
stored in the positions. -/
def registryInv (s : DataSequence) : Prop :=
  regKeys s.match_by_id ⊆ occIdsList s ∧ occIdsList s ⊆ regKeys s.match_by_id

instance (s : DataSequence) : Decidable (registryInv s) :=
  inferInstanceAs (Decidable (_ ∧ _))

/-- Fuel measure for `revokeFuel`: the number of distinct stored ids
other than the one being revoked. -/
def revokeMeasure (s : DataSequence) (mid : String) : Nat :=
  ((occIdsList s).toFinset.erase mid).card

/-- `Y` is reachable from `X` by walking dependency edges upwards: some
stored match with id `Y` has a direct-dependency chain down to `X`. -/
inductive DependsTrans (s : DataSequence) (X : String) : String → Prop
  | refl : DependsTrans s X X
  | step {m : Match} {Z : String} :
      m ∈ s.occurrences → Z ∈ m.depends_on_matches → DependsTrans s X Z →
      DependsTrans s X m.id

/-- `X` is fully revoked from a state: its id is stored nowhere and no
stored match lists it as a direct dependency. -/
def CleanOf (X : String) (s : DataSequence) : Prop :=
  X ∉ occIdsList s ∧ ∀ m ∈ s.occurrences, X ∉ m.depends_on_matches

/-- One mutation of the sequence: a non-raising `add_match` with a fresh
uuid, or a `revoke_match` with any fuel, id and cascade flag. -/
inductive SeqStep : DataSequence → DataSequence → Prop
  | add (s : DataSequence) (m : Match) (b : Bool) (s2 : DataSequence) :
      m.id ∉ occIdsList s → s.add_match m = some (b, s2) → SeqStep s s2
  | revoke (s : DataSequence) (mid : String) (fuel : Nat) (c : Bool) :
      SeqStep s (revokeFuel fuel s mid c)

/-- The (concept, size, start) part of the equivalence test. -/
def tripleEq (saved m : Match) : Prop :=
  saved.concept = m.concept ∧ saved.size = m.size ∧ saved.start_idx = m.start_idx

instance (saved m : Match) : Decidable (tripleEq saved m) :=
  inferInstanceAs (Decidable (_ ∧ _ ∧ _))

/-- Concrete seed match used in small witness states. -/
def wm (cpt : String) (i : Nat) (mid : String) (deps : List String) : Match :=
  { concept := cpt, value := "a", size := 1, start_idx := i, id := mid,
    depends_on_matches := deps }

/-- Witness state for C1: a single seeded position. -/
def c1seq : DataSequence := DataSequence.from_string "a" ["i0"]

/-- A match with a dangling dependency, rejected by `add_match` (C1). -/
def c1match : Match := wm "X" 0 "m1" ["zz"]

/-- Witness state for C5, not yet consolidated. -/
def c5stale : DataSequence :=
  { value := "a", elements := [{ value := some "a" }],
    extractions := [("k", ["v"])], consolidated := false }

/-- Witness state for C5, consolidated, with one aggregated key. -/
def c5fresh : DataSequence :=
  { value := "a", elements := [{ value := some "a" }],
    extractions := [("k", ["v"])], consolidated := true }

/-- Witness state for C6: one match spanning two positions (so it is
stored twice) with one capture entry, plus a second match. -/
def c6m1 : Match :=
  { concept := "P", value := "ab", size := 2, start_idx := 0, id := "i1",
    extractions := [("k", ["v1"])] }

/-- Second match for the C6 witness state. -/
def c6m2 : Match :=
  { concept := "Q", value := "b", size := 1, start_idx := 1, id := "i2",
    extractions := [("k", ["v2"]), ("k2", ["w"])] }

/-- C6 witness state. -/
def c6seq : DataSequence :=
  { value := "ab",
    elements := [{ value := some "a", matchList := [c6m1] },
                 { value := some "b", matchList := [c6m1, c6m2] }],
    match_by_id := [("i1", c6m1), ("i2", c6m2)] }

/-- Base state for the C3 counterexample: a dependency-sensitive match
with empty dependency list is already stored. -/
def c3m0 : Match := wm "Sentence" 0 "i0" []

/-- C3: first added match, same span, depending on `i0`. -/
def c3m1 : Match := wm "Sentence" 0 "i1" ["i0"]

/-- C3: second match, dependency list differs from `c3m1`'s but equals
`c3m0`'s. -/
def c3m2 : Match := wm "Sentence" 0 "i2" []

/-- C3 counterexample start state. -/
def c3s0 : DataSequence :=
  { value := "a", elements := [{ value := some "a", matchList := [c3m0] }],
    match_by_id := [("i0", c3m0)] }

/-- C3 counterexample state after adding `c3m1`. -/
def c3s1 : DataSequence :=
  { value := "a",
    elements := [{ value := some "a", matchList := [c3m0, c3m1] }],
    consolidated := false,
    match_by_id := [("i0", c3m0), ("i1", c3m1)] }

/-- C3 witness base state (non-sensitive concept). -/
def c3w0 : DataSequence :=
  { value := "a", elements := [{ value := some "a" }] }

/-- C8/C2/C9 style fixture: match A, no dependencies. -/
def mA : Match := wm "CA" 0 "idA" []

/-- Fixture match B, depending on A. -/
def mB : Match := wm "CB" 0 "idB" ["idA"]

/-- Fixture state holding A and B on one position. -/
def sAB : DataSequence :=
  { value := "a", elements := [{ value := some "a", matchList := [mA, mB] }],
    match_by_id := [("idA", mA), ("idB", mB)] }

/-- C9 fixture: a second dependant of A spanning two positions, so its
id is stored twice and must be deduplicated. -/
def mC : Match :=
  { concept := "CC", value := "ab", size := 2, start_idx := 0, id := "idC",
    depends_on_matches := ["idA"] }

/-- C9 fixture state. -/
def c9seq : DataSequence :=
  { value := "ab",
    elements := [{ value := some "a", matchList := [mA, mB, mC] },
                 { value := some "b", matchList := [mC] }],
    match_by_id := [("idA", mA), ("idB", mB), ("idC", mC)] }

/-- C4 witness: registry with one dependency of weight 1/2. -/
def c4dep : Match :=
  { concept := "D", value := "a", size := 1, start_idx := 0, id := "d1",
    weight := 1/2 }

/-- C4 witness state. -/
def c4seq : DataSequence :=
  { value := "ab", elements := [{ value := some "a", matchList := [c4dep] }],
    match_by_id := [("d1", c4dep)] }

/-- C4 witness derivation state, depending on `d1`. -/
def c4state : MatchState :=
  { sequence_start_idx := some 0, sequence_end_idx := some 2,
    depends_on_matches := ["d1"] }

/-- C7 witness extractor: empty hierarchy, no patterns. -/
def c7ex : Extractor :=
  { patterns := [], hierarchy := { getParents := fun _ => [], getChildren := fun _ => [] } }

/-- C7 witness pattern body: produces one fixed match. -/
def c7f : DataSequence → MatchState → HierarchyProvider → List Match :=
  fun _ _ _ => [wm "Out" 0 "o1" []]

lemma contains_cond_iff (saved m : Match) :
    ((if saved.concept != m.concept then false
      else if saved.size != m.size then false
      else if saved.start_idx != m.start_idx then false
      else if ["Sentence", "MakesSense"].contains m.concept
              && saved.depends_on_matches != m.depends_on_matches then false
      else true) = true) ↔
    (tripleEq saved m ∧
      ¬(m.concept ∈ (["Sentence", "MakesSense"] : List String) ∧
        saved.depends_on_matches ≠ m.depends_on_matches)) := by
  by_cases h1 : saved.concept = m.concept <;>
    by_cases h2 : saved.size = m.size <;>
      by_cases h3 : saved.start_idx = m.start_idx <;>
        by_cases h4 : m.concept ∈ (["Sentence", "MakesSense"] : List String) <;>
          by_cases h5 : saved.depends_on_matches = m.depends_on_matches <;>
            simp [tripleEq, h1, h2, h3, h4, h5]

lemma contains_match_iff (e : DataElement) (m : Match) :
    e.contains_match m = true ↔
    ∃ saved ∈ e.matchList, tripleEq saved m ∧
      ¬(m.concept ∈ (["Sentence", "MakesSense"] : List String) ∧
        saved.depends_on_matches ≠ m.depends_on_matches) := by
  simp only [DataElement.contains_match, List.any_eq_true, contains_cond_iff]

lemma mem_occurrences (s : DataSequence) (m : Match) :
    m ∈ s.occurrences ↔ ∃ e ∈ s.elements, m ∈ e.matchList := by
  simp [DataSequence.occurrences]

lemma mem_occIdsList (s : DataSequence) (x : String) :
    x ∈ occIdsList s ↔ ∃ m ∈ s.occurrences, m.id = x := by
  simp [occIdsList]

lemma mem_get_all_match_ids (s : DataSequence) (x : String) :
    x ∈ s.get_all_match_ids ↔ x ∈ occIdsList s := by
  simp [DataSequence.get_all_match_ids]

lemma occIds_subset_of_occ_subset {s t : DataSequence}
    (h : s.occurrences ⊆ t.occurrences) : occIdsList s ⊆ occIdsList t := by
  intro x hx
  rw [mem_occIdsList] at hx ⊢
  obtain ⟨m, hm, rfl⟩ := hx
  exact ⟨m, h hm, rfl⟩

lemma dependencies_present_iff (m : Match) (s : DataSequence) :
    m.dependencies_present s = true ↔
    ∀ d ∈ m.depends_on_matches, d ∈ occIdsList s := by
  simp [Match.dependencies_present, List.all_eq_true, mem_get_all_match_ids]

/-- C1: if some id in `m.depends_on_matches` is absent from the
sequence's stored match ids, `add_match m` returns `false` and leaves
the whole sequence state — positions, registry and consolidated flag —
unchanged. -/
theorem add_match_missing_dep_noop (s : DataSequence) (m : Match) (d : String)
    (hd : d ∈ m.depends_on_matches) (habs : d ∉ occIdsList s) :
    s.add_match m = some (false, s) := by
  have hdp : ¬ m.dependencies_present s = true := by
    rw [dependencies_present_iff]
    intro h
    exact habs (h d hd)
  rw [DataSequence.add_match, if_neg hdp]

/-- Witness for C1 at a concrete one-position sequence and a match with
the dangling dependency id `zz`. -/
theorem add_match_missing_dep_noop_witness :
    c1seq.add_match c1match = some (false, c1seq) :=
  add_match_missing_dep_noop c1seq c1match "zz" (by decide) (by decide)

/-- C5: `extract` fails with the "not consolidated" error whenever the
consolidated flag is false, and otherwise returns the aggregated values
stored for the key — the empty list when the key is absent. -/
theorem extract_spec (s : DataSequence) (k : String) :
    (s.consolidated = false →
      s.extract k = Except.error "Must consolidate first") ∧
    (s.consolidated = true →
      (∀ pr, s.extractions.find? (fun p => p.1 == k) = some pr →
        s.extract k = Except.ok pr.2) ∧
      (s.extractions.find? (fun p => p.1 == k) = none →
        s.extract k = Except.ok [])) := by
  constructor
  · intro h
    simp [DataSequence.extract, h]
  · intro h
    constructor
    · intro pr hpr
      simp [DataSequence.extract, h, hpr]
    · intro hnone
      simp [DataSequence.extract, h, hnone]

/-- Witness for C5: the stale state errors, the consolidated state
returns the stored list for `k` and the empty list for an absent key. -/
theorem extract_spec_witness :
    c5stale.extract "k" = Except.error "Must consolidate first" ∧
    c5fresh.extract "k" = Except.ok ["v"] ∧
    c5fresh.extract "nope" = Except.ok [] := by
  refine ⟨(extract_spec c5stale "k").1 (by decide), ?_, ?_⟩
  · exact ((extract_spec c5fresh "k").2 (by decide)).1 ("k", ["v"]) (by decide)
  · exact ((extract_spec c5fresh "nope").2 (by decide)).2 (by decide)

lemma dedupById_sublist : ∀ (l : List Match) (seen : List String),
    (dedupById l seen).Sublist l := by
  intro l
  induction l with
  | nil => intro seen; simp [dedupById]
  | cons m ms ih =>
    intro seen
    rw [dedupById]
    by_cases h : m.id ∈ seen
    · simp only [if_pos h]
      exact (ih seen).cons m
    · simp only [if_neg h]
      exact (ih (m.id :: seen)).cons₂ m

lemma dedupById_not_seen : ∀ (l : List Match) (seen : List String),
    ∀ m ∈ dedupById l seen, m.id ∉ seen := by
  intro l
  induction l with
  | nil => intro seen m hm; simp [dedupById] at hm
  | cons m0 ms ih =>
    intro seen m hm
    rw [dedupById] at hm
    by_cases h : m0.id ∈ seen
    · rw [if_pos h] at hm
      exact ih seen m hm
    · rw [if_neg h] at hm
      rcases List.mem_cons.mp hm with rfl | hm2
      · exact h
      · intro hseen
        exact ih (m0.id :: seen) m hm2 (List.mem_cons_of_mem _ hseen)

lemma dedupById_nodup : ∀ (l : List Match) (seen : List String),
    ((dedupById l seen).map fun m => m.id).Nodup := by
  intro l
  induction l with
  | nil => intro seen; simp [dedupById]
  | cons m0 ms ih =>
    intro seen
    rw [dedupById]
    by_cases h : m0.id ∈ seen
    · rw [if_pos h]; exact ih seen
    · rw [if_neg h]
      simp only [List.map_cons, List.nodup_cons]
      refine ⟨?_, ih (m0.id :: seen)⟩
      intro hmem
      obtain ⟨m, hm, hid⟩ := List.mem_map.mp hmem
      exact dedupById_not_seen ms (m0.id :: seen) m hm (hid ▸ List.mem_cons_self _ _)

lemma dedupById_complete : ∀ (l : List Match) (seen : List String),
    ∀ m ∈ l, m.id ∉ seen →
      m.id ∈ (dedupById l seen).map fun m2 => m2.id := by
  intro l
  induction l with
  | nil => intro seen m hm; simp at hm
  | cons m0 ms ih =>
    intro seen m hm hns
    rw [dedupById]
    rcases List.mem_cons.mp hm with rfl | hm2
    · rw [if_neg hns]
      simp
    · by_cases h : m0.id ∈ seen
      · rw [if_pos h]
        exact ih seen m hm2 hns
      · rw [if_neg h]
        by_cases hid : m.id = m0.id
        · simp [hid]
        · simp only [List.map_cons, List.mem_cons]
          right
          refine ih (m0.id :: seen) m hm2 ?_
          simp [hid, hns]

lemma consolidate_consolidated (s : DataSequence) :
    (s.consolidate).consolidated = true := by
  rw [DataSequence.consolidate]
  by_cases h : s.consolidated
  · rw [if_pos h]; exact h
  · rw [if_neg h]

/-- C6: consolidation is a no-op when already fresh; it is idempotent
(a second call with no intervening mutation changes nothing, so the
aggregated capture data of both calls coincide); and the collection it
merges takes each stored id exactly once (no duplicate ids, every
stored id represented) in traversal order — position order, then
intra-position order — as a sublist of the full occurrence traversal. -/
theorem consolidate_idempotent (s : DataSequence) :
    (s.consolidated = true → s.consolidate = s) ∧
    (s.consolidate).consolidate = s.consolidate ∧
    ((s.consolidate).consolidate).extractions = (s.consolidate).extractions ∧
    ((collectMatches s).map fun m => m.id).Nodup ∧
    (∀ m ∈ s.occurrences, m.id ∈ (collectMatches s).map fun m2 => m2.id) ∧
    (collectMatches s).Sublist s.occurrences := by
  have hfix : ∀ t : DataSequence, t.consolidated = true → t.consolidate = t := by
    intro t ht
    rw [DataSequence.consolidate, if_pos ht]
  have hidem : (s.consolidate).consolidate = s.consolidate :=
    hfix _ (consolidate_consolidated s)
  refine ⟨hfix s, hidem, by rw [hidem], dedupById_nodup _ _, ?_, dedupById_sublist _ _⟩
  intro m hm
  exact dedupById_complete s.occurrences [] m hm (by simp)

/-- Witness for C6 on a concrete state where one match is stored at two
positions: the no-op branch fires on the consolidated result. -/
theorem consolidate_idempotent_witness :
    (c6seq.consolidate).consolidate = c6seq.consolidate ∧
    c6m1.id ∈ (collectMatches c6seq).map fun m2 => m2.id :=
  ⟨(consolidate_idempotent c6seq.consolidate).1 (by decide),
   (consolidate_idempotent c6seq).2.2.2.2.1 c6m1 (by decide)⟩

lemma foldl_min_le_init : ∀ (l : List ℚ) (w : ℚ), l.foldl min w ≤ w := by
  intro l
  induction l with
  | nil => intro w; simp
  | cons x xs ih =>
    intro w
    calc (x :: xs).foldl min w = xs.foldl min (min w x) := by simp
    _ ≤ min w x := ih (min w x)
    _ ≤ w := min_le_left _ _

lemma foldl_min_le_mem : ∀ (l : List ℚ) (w x : ℚ), x ∈ l → l.foldl min w ≤ x := by
  intro l
  induction l with
  | nil => intro w x hx; simp at hx
  | cons y ys ih =>
    intro w x hx
    rcases List.mem_cons.mp hx with rfl | hx2
    · calc (x :: ys).foldl min w = ys.foldl min (min w x) := by simp
      _ ≤ min w x := foldl_min_le_init _ _
      _ ≤ x := min_le_right _ _
    · exact ih (min w y) x hx2

lemma foldl_min_attained : ∀ (l : List ℚ) (w : ℚ),
    l.foldl min w = w ∨ l.foldl min w ∈ l := by
  intro l
  induction l with
  | nil => intro w; simp
  | cons y ys ih =>
    intro w
    have hstep : (y :: ys).foldl min w = ys.foldl min (min w y) := by simp
    rcases ih (min w y) with h | h
    · rcases min_cases w y with ⟨hmin, _⟩ | ⟨hmin, _⟩
      · left; rw [hstep, h, hmin]
      · right; rw [hstep, h, hmin]; exact List.mem_cons_self _ _
    · right
      rw [hstep]
      exact List.mem_cons_of_mem _ h

lemma depWeightFold_some (s : DataSequence) :
    ∀ (deps : List String) (w : ℚ),
    (∀ d ∈ deps, (registryLookup s.match_by_id d).isSome) →
    depWeightFold s deps w =
      some ((deps.map fun d =>
        ((registryLookup s.match_by_id d).getD default).weight).foldl min w) := by
  intro deps
  induction deps with
  | nil => intro w _; simp [depWeightFold]
  | cons d ds ih =>
    intro w h
    obtain ⟨dm, hdm⟩ := Option.isSome_iff_exists.mp (h d (List.mem_cons_self _ _))
    have hstep : depWeightFold s (d :: ds) w = depWeightFold s ds (min w dm.weight) := by
      simp [depWeightFold, hdm]
    rw [hstep, ih (min w dm.weight) (fun d2 hd2 => h d2 (List.mem_cons_of_mem _ hd2))]
    simp [hdm]

/-- C4: when every direct dependency id is present in the registry,
`get_matches` succeeds and the main match's stored weight is exactly the
minimum of the requested weight and the weights of all direct
dependencies: it is a lower bound of all of them and is attained by one
of them (or by the requested weight itself). -/
theorem get_matches_weight (st : MatchState) (s : DataSequence)
    (concept : String) (w : ℚ) (mainId : String) (asmpIds : List String)
    (a b : Nat)
    (hstart : st.sequence_start_idx = some a)
    (hend : st.sequence_end_idx = some b)
    (hdeps : ∀ d ∈ st.depends_on_matches,
      (registryLookup s.match_by_id d).isSome) :
    ∃ mainMatch rest,
      st.get_matches s concept w mainId asmpIds = some (mainMatch :: rest) ∧
      mainMatch.weight ≤ w ∧
      (∀ d ∈ st.depends_on_matches, ∀ dm,
        registryLookup s.match_by_id d = some dm → mainMatch.weight ≤ dm.weight) ∧
      (mainMatch.weight = w ∨
        ∃ d ∈ st.depends_on_matches, ∃ dm,
          registryLookup s.match_by_id d = some dm ∧
          mainMatch.weight = dm.weight) := by
  have hfold := depWeightFold_some s st.depends_on_matches w hdeps
  refine ⟨{ concept := concept, value := substr s.value a b, size := b - a,
            start_idx := a, id := mainId, assumed := false,
            depends_on_matches := st.depends_on_matches,
            extractions := st.extractions,
            weight := (st.depends_on_matches.map fun d =>
              ((registryLookup s.match_by_id d).getD default).weight).foldl min w },
          (st.assumptions.zip asmpIds).map fun p =>
            { concept := p.1.assumed_concept,
              value := substr s.value p.1.sequence_start_idx p.1.sequence_end_idx,
              size := p.1.sequence_end_idx - p.1.sequence_start_idx,
              start_idx := p.1.sequence_start_idx,
              id := p.2,
              assumed := true,
              depends_on_matches := [mainId],
              weight := p.1.weight },
          ?_, ?_, ?_, ?_⟩
  · rw [MatchState.get_matches, hfold, hstart, hend]
  · exact foldl_min_le_init _ _
  · intro d hd dm hdm
    refine foldl_min_le_mem _ _ _ ?_
    refine List.mem_map.mpr ⟨d, hd, ?_⟩
    simp [hdm]
  · rcases foldl_min_attained
        ((st.depends_on_matches.map fun d =>
          ((registryLookup s.match_by_id d).getD default).weight)) w with h | h
    · left; exact h
    · right
      obtain ⟨d, hd, heq⟩ := List.mem_map.mp h
      obtain ⟨dm, hdm⟩ := Option.isSome_iff_exists.mp (hdeps d hd)
      refine ⟨d, hd, dm, hdm, ?_⟩
      rw [← heq]
      simp [hdm]

/-- Witness for C4: a dependency of weight 1/2 pulls a request of weight
1 down; the hypotheses are discharged on the concrete fixture. -/
theorem get_matches_weight_witness :
    ∃ mainMatch rest,
      c4state.get_matches c4seq "Top" 1 "t1" [] = some (mainMatch :: rest) ∧
      mainMatch.weight ≤ 1 ∧
      (∀ d ∈ c4state.depends_on_matches, ∀ dm,
        registryLookup c4seq.match_by_id d = some dm →
        mainMatch.weight ≤ dm.weight) ∧
      (mainMatch.weight = 1 ∨
        ∃ d ∈ c4state.depends_on_matches, ∃ dm,
          registryLookup c4seq.match_by_id d = some dm ∧
          mainMatch.weight = dm.weight) :=
  get_matches_weight c4state c4seq "Top" 1 "t1" [] 0 2 (by decide) (by decide)
    (by decide)

/-- C8 (code bug): `drop_matches` accepts a `cascade` flag but passes
`cascade=False` to `revoke_match` unconditionally (data_sequence.py
line 265). On the fixture, dropping concept `CA` with `cascade=True`
revokes `A` but leaves its dependant `B` stored and registered, while
the claim requires `B` to be cascaded away. -/
theorem drop_matches_ignores_cascade :
    (sAB.drop_matches ["CA"] none true = sAB.drop_matches ["CA"] none false) ∧
    mB ∈ (sAB.drop_matches ["CA"] none true).occurrences ∧
    "idB" ∈ regKeys (sAB.drop_matches ["CA"] none true).match_by_id ∧
    "idA" ∉ occIdsList (sAB.drop_matches ["CA"] none true) ∧
    "idA" ∉ regKeys (sAB.drop_matches ["CA"] none true).match_by_id ∧
    "idA" ∈ mB.depends_on_matches := by
  decide

/-- C9 (code bug): `find_dependant_matches` returns the sorted
deduplicated dependant ids, but `get_dependant_matches` evaluates
`match_id.id` on a string (data_sequence.py line 195), raising
`AttributeError` as soon as one dependant exists; it returns the empty
set only when there is no dependant at all. -/
theorem get_dependant_matches_raises :
    sAB.find_dependant_matches "idA" = ["idB"] ∧
    c9seq.find_dependant_matches "idA" = ["idB", "idC"] ∧
    c9seq.get_dependant_matches "idA" =
      Except.error "AttributeError: str object has no attribute id" ∧
    c9seq.get_dependant_matches "idQ" = Except.ok ∅ :=
  ⟨rfl, rfl, rfl, rfl⟩

/-- C7: in every `apply_once` pass, a pattern with an inside constraint
is gated twice. The start gate `check_inside_start_idx` passes exactly
when some match stored at the position has the inside concept or a
concept whose ancestor set contains it, and when it fails the
(position, pattern) step returns without invoking the pattern — the
result is independent of the pattern body and the state is untouched.
The acceptance gate `check_match_is_inside` passes exactly when some
stored match with exactly the produced match's start index and size has
the inside concept or a descendant of it, and a produced match failing
it is skipped without being submitted to `add_match`. -/
theorem apply_once_inside_gates (ex : Extractor) (s : DataSequence)
    (idx : Nat) (c : String) :
    (ex.check_inside_start_idx s idx c = true ↔
      ∃ m ∈ (s.elements.getD idx default).matchList,
        c = m.concept ∨ c ∈ ex.hierarchy.getParents m.concept) ∧
    (∀ f, ex.check_inside_start_idx s idx c = false →
      ex.stepPattern s idx { inside := some c, matchFn := f } =
        some (false, s)) ∧
    (∀ m : Match, ex.check_match_is_inside s m c = true ↔
      ∃ other ∈ (s.elements.getD m.start_idx default).matchList,
        (c = other.concept ∨ c ∈ ex.hierarchy.getParents other.concept) ∧
        other.start_idx = m.start_idx ∧ other.size = m.size) ∧
    (∀ (b : Bool) (t : DataSequence) (m : Match) (ms : List Match),
      ex.check_match_is_inside t m c = false →
      ex.submitMatches (some c) (some (b, t)) (m :: ms) =
        ex.submitMatches (some c) (some (b, t)) ms) := by
  refine ⟨?_, ?_, ?_, ?_⟩
  · simp [Extractor.check_inside_start_idx, List.any_eq_true]
  · intro f hfail
    rw [Extractor.stepPattern]
    simp [hfail]
  · intro m
    simp [Extractor.check_match_is_inside, List.any_eq_true, and_assoc]
  · intro b t m ms hfail
    rw [Extractor.submitMatches]
    simp [hfail]

/-- Witness for C7: a concrete empty-hierarchy extractor where the
inside concept is stored nowhere, so both gates reject. -/
theorem apply_once_inside_gates_witness :
    c7ex.stepPattern c1seq 0 { inside := some "Inside", matchFn := c7f } =
      some (false, c1seq) ∧
    c7ex.submitMatches (some "Inside") (some (false, c1seq))
        [wm "Out" 0 "o1" []] =
      c7ex.submitMatches (some "Inside") (some (false, c1seq)) [] :=
  ⟨(apply_once_inside_gates c7ex c1seq 0 "Inside").2.1 c7f (by decide),
   (apply_once_inside_gates c7ex c1seq 0 "Inside").2.2.2 false c1seq
     (wm "Out" 0 "o1" []) [] (by decide)⟩

lemma mem_regKeys_insert (r : List (String × Match)) (k : String) (v : Match)
    (x : String) :
    x ∈ regKeys (registryInsert r k v) ↔ x ∈ regKeys r ∨ x = k := by
  rw [registryInsert]
  by_cases h : r.any fun p => p.1 == k
  · rw [if_pos h]
    obtain ⟨p0, hp0, he0⟩ := List.any_eq_true.mp h
    have hk : p0.1 = k := by simpa using he0
    simp only [regKeys, List.map_map, List.mem_map, Function.comp]
    constructor
    · rintro ⟨p1, hp1, hx1⟩
      by_cases h2 : p1.1 = k
      · right
        rw [if_pos (by simpa using h2)] at hx1
        exact hx1.symm
      · left
        rw [if_neg (by simpa using h2)] at hx1
        exact ⟨p1, hp1, hx1⟩
    · rintro (⟨p1, hp1, rfl⟩ | rfl)
      · refine ⟨p1, hp1, ?_⟩
        by_cases h2 : p1.1 = k
        · rw [if_pos (by simpa using h2)]
          exact h2.symm
        · rw [if_neg (by simpa using h2)]
      · exact ⟨p0, hp0, by rw [if_pos (by simpa using hk)]⟩
  · rw [if_neg h]
    simp [regKeys]

lemma addAtPos_length (s : DataSequence) (i : Nat) (m : Match) :
    (s.addAtPos i m).2.elements.length = s.elements.length := by
  rw [DataSequence.addAtPos]
  cases hg : s.elements.get? i with
  | none => rfl
  | some e =>
    by_cases hc : e.contains_match m
    · simp [hc]
    · simp [hc]

lemma addAtPos_consolidated (s : DataSequence) (i : Nat) (m : Match) :
    (s.addAtPos i m).2.consolidated = s.consolidated := by
  rw [DataSequence.addAtPos]
  cases hg : s.elements.get? i with
  | none => rfl
  | some e =>
    by_cases hc : e.contains_match m
    · simp [hc]
    · simp [hc]

lemma addAtPos_getD_ne (s : DataSequence) (i : Nat) (m : Match) (j : Nat)
    (hij : i ≠ j) :
    (s.addAtPos i m).2.elements.getD j default = s.elements.getD j default := by
  rw [DataSequence.addAtPos]
  cases hg : s.elements.get? i with
  | none => rfl
  | some e =>
    by_cases hc : e.contains_match m
    · simp [hc]
    · simp only [hc, if_neg, Bool.false_eq_true, not_false_iff]
      simp only [List.getD_eq_getElem?_getD, List.getElem?_set_ne hij]

lemma get?_getD (s : DataSequence) (i : Nat) (e : DataElement)
    (hg : s.elements.get? i = some e) :
    s.elements.getD i default = e := by
  rw [List.getD_eq_getElem?_getD, ← List.get?_eq_getElem?, hg]
  rfl

lemma addAtPos_getD_grow (s : DataSequence) (i : Nat) (m : Match) (j : Nat)
    (x : Match) (hx : x ∈ (s.elements.getD j default).matchList) :
    x ∈ ((s.addAtPos i m).2.elements.getD j default).matchList := by
  by_cases hij : i = j
  · subst hij
    rw [DataSequence.addAtPos]
    cases hg : s.elements.get? i with
    | none => exact hx
    | some e =>
      by_cases hc : e.contains_match m
      · simpa [hc] using hx
      · have hi : i < s.elements.length := List.get?_eq_some.mp hg |>.1
        have hgd : s.elements.getD i default = e := get?_getD s i e hg
        simp only [hc, Bool.false_eq_true, if_false]
        have : (s.elements.set i { e with matchList := e.matchList ++ [m] }).getD i
            default = { e with matchList := e.matchList ++ [m] } := by
          rw [List.getD_eq_getElem?_getD, List.getElem?_set_self (by omega)]
          rfl
        rw [this]
        rw [hgd] at hx
        exact List.mem_append_left _ hx
  · rw [addAtPos_getD_ne s i m j hij]
    exact hx

lemma getD_eq_getElem (s : DataSequence) (p : Nat)
    (hp : p < s.elements.length) :
    s.elements.getD p default = s.elements[p] := by
  rw [List.getD_eq_getElem?_getD, List.getElem?_eq_getElem hp]
  rfl

lemma mem_set_self {a : Type} [Inhabited a] (l : List a) (i : Nat) (x : a)
    (hi : i < l.length) : x ∈ l.set i x := by
  have hlt : i < (l.set i x).length := by simpa using hi
  have heq : (l.set i x)[i] = x := List.getElem_set_self (h := hlt)
  have hm := List.getElem_mem hlt
  rwa [heq] at hm

lemma mem_set_of_ne {a : Type} (l : List a) (i n : Nat) (x : a)
    (hn : n < l.length) (hni : i ≠ n) : l[n] ∈ l.set i x := by
  have hlt : n < (l.set i x).length := by simpa using hn
  have heq : (l.set i x)[n] = l[n] := List.getElem_set_ne hni hlt
  have hm := List.getElem_mem hlt
  rwa [heq] at hm

lemma addAtPos_establish (s : DataSequence) (i : Nat) (m : Match)
    (hi : i < s.elements.length) :
    ∃ saved ∈ ((s.addAtPos i m).2.elements.getD i default).matchList,
      tripleEq saved m := by
  have hg : s.elements.get? i = some s.elements[i] := by
    simp [List.get?_eq_getElem?, List.getElem?_eq_getElem hi]
  rw [DataSequence.addAtPos, hg]
  by_cases hc : s.elements[i].contains_match m
  · obtain ⟨saved, hmem, htr, _⟩ := (contains_match_iff _ m).mp hc
    refine ⟨saved, ?_, htr⟩
    simp only [hc, if_true]
    rw [getD_eq_getElem s i hi]
    exact hmem
  · simp only [hc, Bool.false_eq_true, if_false]
    refine ⟨m, ?_, ⟨rfl, rfl, rfl⟩⟩
    have hset : ((s.elements.set i
        { s.elements[i] with matchList := s.elements[i].matchList ++ [m] }).getD i
        default) =
        { s.elements[i] with matchList := s.elements[i].matchList ++ [m] } := by
      rw [List.getD_eq_getElem?_getD, List.getElem?_set_self (by omega)]
      rfl
    rw [hset]
    exact List.mem_append_right _ (List.mem_singleton.mpr rfl)

lemma addAtPos_keys_grow (s : DataSequence) (i : Nat) (m : Match) (x : String)
    (hx : x ∈ regKeys s.match_by_id) :
    x ∈ regKeys (s.addAtPos i m).2.match_by_id := by
  rw [DataSequence.addAtPos]
  cases hg : s.elements.get? i with
  | none => exact hx
  | some e =>
    by_cases hc : e.contains_match m
    · simpa [hc] using hx
    · simp only [hc, Bool.false_eq_true, if_false]
      exact (mem_regKeys_insert _ _ _ _).mpr (Or.inl hx)

lemma mem_occ_of_getD (s : DataSequence) (p : Nat) (hp : p < s.elements.length)
    (x : Match) (hx : x ∈ (s.elements.getD p default).matchList) :
    x ∈ s.occurrences := by
  rw [mem_occurrences]
  refine ⟨s.elements[p], List.getElem_mem hp, ?_⟩
  have : s.elements.getD p default = s.elements[p] := by
    rw [List.getD_eq_getElem?_getD, List.getElem?_eq_getElem hp]
    rfl
  rwa [this] at hx

lemma mem_occ_addAtPos (s : DataSequence) (i : Nat) (m x : Match)
    (hx : x ∈ s.occurrences) :
    x ∈ (s.addAtPos i m).2.occurrences := by
  rw [DataSequence.addAtPos]
  cases hg : s.elements.get? i with
  | none => exact hx
  | some e =>
    by_cases hc : e.contains_match m
    · simpa [hc] using hx
    · simp only [hc, Bool.false_eq_true, if_false]
      obtain ⟨e2, he2, hxe⟩ := (mem_occurrences _ _).mp hx
      obtain ⟨n, hn, rfl⟩ := List.mem_iff_getElem.mp he2
      have hi : i < s.elements.length := (List.get?_eq_some.mp hg).1
      have he : s.elements[i] = e := by
        have h2 := (List.get?_eq_some.mp hg).2
        simpa [List.get_eq_getElem] using h2
      rw [mem_occurrences]
      by_cases hni : i = n
      · subst hni
        refine ⟨{ e with matchList := e.matchList ++ [m] }, ?_, ?_⟩
        · exact mem_set_self _ _ _ hi
        · rw [he] at hxe
          exact List.mem_append_left _ hxe
      · exact ⟨s.elements[n], mem_set_of_ne _ _ _ _ hn hni, hxe⟩

lemma foldl_range_succ {a : Type} (f : a → Nat → a) (init : a) (j : Nat) :
    (List.range (j + 1)).foldl f init = f ((List.range j).foldl f init) j := by
  rw [List.range_succ, List.foldl_append]
  rfl

lemma addFold_length (m : Match) (j : Nat) : ∀ (t : DataSequence) (b : Bool),
    (((List.range j).foldl (fun acc idx =>
        let r := acc.2.addAtPos (m.start_idx + idx) m
        (acc.1 || r.1, r.2)) (b, t)).2.elements.length) = t.elements.length := by
  induction j with
  | zero => intro t b; simp
  | succ n ih =>
    intro t b
    rw [foldl_range_succ]
    simp only []
    rw [addAtPos_length]
    exact ih t b

lemma addFold_consolidated (m : Match) (j : Nat) : ∀ (t : DataSequence) (b : Bool),
    (((List.range j).foldl (fun acc idx =>
        let r := acc.2.addAtPos (m.start_idx + idx) m
        (acc.1 || r.1, r.2)) (b, t)).2.consolidated) = t.consolidated := by
  induction j with
  | zero => intro t b; simp
  | succ n ih =>
    intro t b
    rw [foldl_range_succ]
    simp only []
    rw [addAtPos_consolidated]
    exact ih t b

lemma addFold_untouched (m : Match) (j : Nat) :
    ∀ (t : DataSequence) (b : Bool) (p : Nat),
    (∀ k < j, p ≠ m.start_idx + k) →
    (((List.range j).foldl (fun acc idx =>
        let r := acc.2.addAtPos (m.start_idx + idx) m
        (acc.1 || r.1, r.2)) (b, t)).2.elements.getD p default) =
      t.elements.getD p default := by
  induction j with
  | zero => intro t b p _; simp
  | succ n ih =>
    intro t b p hp
    rw [foldl_range_succ]
    simp only []
    rw [addAtPos_getD_ne _ _ _ _ (fun h => hp n (Nat.lt_succ_self n) h.symm)]
    exact ih t b p fun k hk => hp k (Nat.lt_succ_of_lt hk)

lemma addFold_coverage (m : Match) (j : Nat) : ∀ (t : DataSequence) (b : Bool),
    m.start_idx + j ≤ t.elements.length →
    ∀ k, k < j →
    ∃ saved ∈ (((List.range j).foldl (fun acc idx =>
        let r := acc.2.addAtPos (m.start_idx + idx) m
        (acc.1 || r.1, r.2)) (b, t)).2.elements.getD (m.start_idx + k)
          default).matchList, tripleEq saved m := by
  induction j with
  | zero => intro t b _ k hk; omega
  | succ n ih =>
    intro t b hb k hk
    rw [foldl_range_succ]
    simp only []
    by_cases hkn : k < n
    · obtain ⟨saved, hmem, htr⟩ := ih t b (by omega) k hkn
      exact ⟨saved, addAtPos_getD_grow _ _ _ _ _ hmem, htr⟩
    · have hkeq : k = n := by omega
      subst hkeq
      refine addAtPos_establish _ _ _ ?_
      rw [addFold_length]
      omega

lemma addFold_noop (m : Match) (j : Nat) : ∀ (t : DataSequence),
    (∀ k < j, ∀ e, t.elements.get? (m.start_idx + k) = some e →
      e.contains_match m = true) →
    ((List.range j).foldl (fun acc idx =>
        let r := acc.2.addAtPos (m.start_idx + idx) m
        (acc.1 || r.1, r.2)) (false, t)) = (false, t) := by
  induction j with
  | zero => intro t _; simp
  | succ n ih =>
    intro t ht
    rw [foldl_range_succ, ih t fun k hk => ht k (Nat.lt_succ_of_lt hk)]
    simp only []
    rw [DataSequence.addAtPos]
    cases hg : t.elements.get? (m.start_idx + n) with
    | none => rfl
    | some e =>
      have hc := ht n (Nat.lt_succ_self n) e hg
      simp [hc]

lemma addFold_inserted (m : Match) (j : Nat) : ∀ (t : DataSequence),
    m.start_idx + j ≤ t.elements.length →
    (∀ k < j, ∀ e, t.elements.get? (m.start_idx + k) = some e →
      e.contains_match m = false) →
    1 ≤ j →
    (((List.range j).foldl (fun acc idx =>
        let r := acc.2.addAtPos (m.start_idx + idx) m
        (acc.1 || r.1, r.2)) (false, t)).1 = true) ∧
    m ∈ (((List.range j).foldl (fun acc idx =>
        let r := acc.2.addAtPos (m.start_idx + idx) m
        (acc.1 || r.1, r.2)) (false, t)).2.occurrences) ∧
    m.id ∈ regKeys (((List.range j).foldl (fun acc idx =>
        let r := acc.2.addAtPos (m.start_idx + idx) m
        (acc.1 || r.1, r.2)) (false, t)).2.match_by_id) := by
  induction j with
  | zero => intro t _ _ h; omega
  | succ n ih =>
    intro t hb ht _
    by_cases hn : n = 0
    · subst hn
      rw [foldl_range_succ]
      simp only [List.range_zero, List.foldl_nil]
      have hi : m.start_idx < t.elements.length := by omega
      have hg : t.elements.get? m.start_idx = some t.elements[m.start_idx] := by
        simp [List.get?_eq_getElem?, List.getElem?_eq_getElem hi]
      have hc := ht 0 Nat.one_pos t.elements[m.start_idx] (by simpa using hg)
      rw [DataSequence.addAtPos]
      simp only [Nat.add_zero, hg, hc, Bool.false_eq_true, if_false, Bool.false_or]
      refine ⟨trivial, ?_, ?_⟩
      · refine mem_occ_of_getD _ m.start_idx (by simpa using hi) m ?_
        have hset : ((t.elements.set m.start_idx
            { t.elements[m.start_idx] with
              matchList := t.elements[m.start_idx].matchList ++ [m] }).getD
            m.start_idx default) =
            { t.elements[m.start_idx] with
              matchList := t.elements[m.start_idx].matchList ++ [m] } := by
          rw [List.getD_eq_getElem?_getD, List.getElem?_set_self (by omega)]
          rfl
        rw [hset]
        exact List.mem_append_right _ (List.mem_singleton.mpr rfl)
      · exact (mem_regKeys_insert _ _ _ _).mpr (Or.inr rfl)
    · have hge : 1 ≤ n := by omega
      obtain ⟨ih1, ih2, ih3⟩ := ih t (by omega)
        (fun k hk => ht k (Nat.lt_succ_of_lt hk)) hge
      rw [foldl_range_succ]
      simp only []
      refine ⟨by rw [ih1]; rfl, ?_, ?_⟩
      · exact mem_occ_addAtPos _ _ _ _ ih2
      · exact addAtPos_keys_grow _ _ _ _ ih3

lemma consolidated_false_eta (t : DataSequence) (h : t.consolidated = false) :
    ({ t with consolidated := false } : DataSequence) = t := by
  cases t
  simp only at h
  simp [h]

lemma add_match_dup_rejected (s s1 : DataSequence) (m1 m2 : Match)
    (hns : m1.concept ∉ (["Sentence", "MakesSense"] : List String))
    (hc : m2.concept = m1.concept) (hsz : m2.size = m1.size)
    (hst : m2.start_idx = m1.start_idx)
    (hadd : s.add_match m1 = some (true, s1)) :
    s1.add_match m2 = some (false, s1) := by
  rw [DataSequence.add_match] at hadd
  by_cases hdp : m1.dependencies_present s = true
  · rw [if_pos hdp] at hadd
    by_cases hb : m1.start_idx + m1.size ≤ s.elements.length
    · rw [if_pos hb] at hadd
      have hfold := Option.some.inj hadd
      have hs1 : s1 = ((List.range m1.size).foldl (fun acc idx =>
          let r := acc.2.addAtPos (m1.start_idx + idx) m1
          (acc.1 || r.1, r.2)) (false, { s with consolidated := false })).2 := by
        rw [hfold]
      have hlen : s1.elements.length = s.elements.length := by
        rw [hs1, addFold_length]
      have hcons : s1.consolidated = false := by
        rw [hs1, addFold_consolidated]
      have hcov : ∀ k, k < m1.size →
          ∃ saved ∈ (s1.elements.getD (m1.start_idx + k) default).matchList,
            tripleEq saved m1 := by
        intro k hk
        rw [hs1]
        exact addFold_coverage m1 m1.size { s with consolidated := false }
          false hb k hk
      rw [DataSequence.add_match]
      by_cases hdp2 : m2.dependencies_present s1 = true
      · rw [if_pos hdp2, if_pos (by rw [hst, hsz, hlen]; exact hb)]
        rw [consolidated_false_eta s1 hcons]
        rw [addFold_noop m2 m2.size s1 ?_]
        intro k hk e hge
        have hcov2 := hcov k (by omega)
        rw [← hst] at hcov2
        rw [get?_getD s1 _ e hge] at hcov2
        obtain ⟨saved, hmem, htr⟩ := hcov2
        rw [contains_match_iff]
        refine ⟨saved, hmem, ?_, ?_⟩
        · obtain ⟨h1, h2, h3⟩ := htr
          exact ⟨h1.trans hc.symm, h2.trans hsz.symm, h3.trans hst.symm⟩
        · rw [hc]
          intro hcontra
          exact hns hcontra.1
      · rw [if_neg hdp2]
    · rw [if_neg hb] at hadd
      exact absurd hadd (by simp)
  · rw [if_neg hdp] at hadd
    simp at hadd

lemma add_match_sensitive_inserted (s1 : DataSequence) (m2 : Match)
    (hsens : m2.concept ∈ (["Sentence", "MakesSense"] : List String))
    (hdp : m2.dependencies_present s1 = true)
    (hb : m2.start_idx + m2.size ≤ s1.elements.length)
    (hsz : 1 ≤ m2.size)
    (hdiff : ∀ e ∈ s1.elements, ∀ saved ∈ e.matchList, tripleEq saved m2 →
        saved.depends_on_matches ≠ m2.depends_on_matches) :
    ∃ s2, s1.add_match m2 = some (true, s2) ∧ m2 ∈ s2.occurrences ∧
      m2.id ∈ regKeys s2.match_by_id := by
  rw [DataSequence.add_match, if_pos hdp, if_pos hb]
  have hfalse : ∀ k < m2.size, ∀ e,
      ({ s1 with consolidated := false } : DataSequence).elements.get?
        (m2.start_idx + k) = some e → e.contains_match m2 = false := by
    intro k _ e hge
    by_contra hcon
    rw [Bool.not_eq_false] at hcon
    obtain ⟨saved, hmem, htr, hnodep⟩ := (contains_match_iff e m2).mp hcon
    have hee : e ∈ s1.elements := List.get?_mem hge
    exact hnodep ⟨hsens, hdiff e hee saved hmem htr⟩
  have hlen : ({ s1 with consolidated := false } : DataSequence).elements.length
      = s1.elements.length := rfl
  obtain ⟨h1, h2, h3⟩ := addFold_inserted m2 m2.size
    { s1 with consolidated := false } (by rw [hlen]; exact hb) hfalse hsz
  refine ⟨_, ?_, h2, h3⟩
  congr 1
  exact Prod.ext h1 rfl

/-- C3 (corrected): adding a second match with the same concept, size and
start index as an already-added match is rejected with no insertion when
the concept is not dependency-sensitive; for a dependency-sensitive
concept (`Sentence`, `MakesSense`) the second match is inserted whenever
its direct dependency list differs from that of every stored match with
the same (concept, start, size) triple — in particular from the first
match's. -/
theorem add_match_equivalence_classes :
    (∀ (s s1 : DataSequence) (m1 m2 : Match),
      m1.concept ∉ (["Sentence", "MakesSense"] : List String) →
      m2.concept = m1.concept → m2.size = m1.size →
      m2.start_idx = m1.start_idx →
      s.add_match m1 = some (true, s1) →
      s1.add_match m2 = some (false, s1)) ∧
    (∀ (s1 : DataSequence) (m2 : Match),
      m2.concept ∈ (["Sentence", "MakesSense"] : List String) →
      m2.dependencies_present s1 = true →
      m2.start_idx + m2.size ≤ s1.elements.length →
      1 ≤ m2.size →
      (∀ e ∈ s1.elements, ∀ saved ∈ e.matchList, tripleEq saved m2 →
        saved.depends_on_matches ≠ m2.depends_on_matches) →
      ∃ s2, s1.add_match m2 = some (true, s2) ∧ m2 ∈ s2.occurrences ∧
        m2.id ∈ regKeys s2.match_by_id) :=
  ⟨add_match_dup_rejected, add_match_sensitive_inserted⟩

/-- C3 counterexample to the claim as stated: with the sensitive concept
`Sentence`, `c3m2`'s dependency list differs from `c3m1`'s, yet the
second add returns false and inserts nothing, because the pre-existing
`c3m0` has the same triple and the same dependency list as `c3m2`. -/
theorem add_match_sensitive_not_always_inserted :
    c3m2.concept = "Sentence" ∧
    c3m2.depends_on_matches ≠ c3m1.depends_on_matches ∧
    c3s0.add_match c3m1 = some (true, c3s1) ∧
    c3s1.add_match c3m2 = some (false, c3s1) := by
  refine ⟨rfl, by decide, by decide, by decide⟩

/-- Witness for C3 on concrete states: the non-sensitive duplicate is
rejected, and the sensitive differing-dependency match is inserted. -/
theorem add_match_equivalence_classes_witness :
    ((wm "W" 0 "w2" []).depends_on_matches = [] ∧
      ∃ s1, c3w0.add_match (wm "W" 0 "w1" []) = some (true, s1) ∧
        s1.add_match (wm "W" 0 "w2" []) = some (false, s1)) ∧
    (∃ s2, c3s1.add_match (wm "Sentence" 0 "i9" ["i1"]) = some (true, s2) ∧
      wm "Sentence" 0 "i9" ["i1"] ∈ s2.occurrences ∧
      (wm "Sentence" 0 "i9" ["i1"]).id ∈ regKeys s2.match_by_id) := by
  constructor
  · refine ⟨rfl, ?_⟩
    have h1 : c3w0.add_match (wm "W" 0 "w1" []) = some (true,
        { value := "a",
          elements := [{ value := some "a", matchList := [wm "W" 0 "w1" []] }],
          consolidated := false,
          match_by_id := [("w1", wm "W" 0 "w1" [])] }) := by decide
    exact ⟨_, h1, add_match_equivalence_classes.1 c3w0 _ (wm "W" 0 "w1" [])
      (wm "W" 0 "w2" []) (by decide) rfl rfl rfl h1⟩
  · exact add_match_equivalence_classes.2 c3s1 (wm "Sentence" 0 "i9" ["i1"])
      (by decide) (by decide) (by decide) (by decide) (by decide)

lemma mem_occ_removeRevoked (s : DataSequence) (mid : String) (m : Match) :
    m ∈ (removeRevoked s mid).occurrences ↔
    m ∈ s.occurrences ∧ ¬(mid ∉ m.depends_on_matches ∧ m.id = mid) := by
  simp only [removeRevoked, mem_occurrences]
  constructor
  · rintro ⟨e, he, hme⟩
    obtain ⟨e0, he0, rfl⟩ := List.mem_map.mp he
    obtain ⟨hm0, hcond⟩ := List.mem_filter.mp hme
    refine ⟨⟨e0, he0, hm0⟩, ?_⟩
    intro ⟨h1, h2⟩
    simp [h1, h2] at hcond
  · rintro ⟨⟨e, he, hme⟩, hcond⟩
    refine ⟨_, List.mem_map.mpr ⟨e, he, rfl⟩, ?_⟩
    refine List.mem_filter.mpr ⟨hme, ?_⟩
    simp only [Bool.not_eq_true']
    by_cases h2 : m.id = mid
    · by_cases h1 : mid ∈ m.depends_on_matches
      · simp [h1]
      · exact absurd ⟨h1, h2⟩ hcond
    · simp [h2]

lemma occ_removeRevoked_subset (s : DataSequence) (mid : String) :
    (removeRevoked s mid).occurrences ⊆ s.occurrences := by
  intro m hm
  exact ((mem_occ_removeRevoked s mid m).mp hm).1

lemma mem_collectToRevoke (s : DataSequence) (mid : String) (y : String) :
    y ∈ collectToRevoke s mid ↔
    ∃ m ∈ s.occurrences, mid ∈ m.depends_on_matches ∧ m.id = y := by
  simp only [collectToRevoke, List.mem_flatMap, List.mem_map, List.mem_filter,
    mem_occurrences]
  constructor
  · rintro ⟨e, he, m, ⟨hme, hdep⟩, rfl⟩
    exact ⟨m, ⟨e, he, hme⟩, by simpa using hdep, rfl⟩
  · rintro ⟨m, ⟨e, he, hme⟩, hdep, rfl⟩
    exact ⟨e, he, m, ⟨hme, by simpa using hdep⟩, rfl⟩

lemma not_mem_occIds_removeRevoked (s : DataSequence) (mid : String)
    (hns : noSelfDep s) : mid ∉ occIdsList (removeRevoked s mid) := by
  intro hmem
  obtain ⟨m, hm, hid⟩ := (mem_occIdsList _ _).mp hmem
  obtain ⟨hms, hcond⟩ := (mem_occ_removeRevoked s mid m).mp hm
  exact hcond ⟨hid ▸ hns m hms, hid⟩

lemma noSelfDep_of_subset {s t : DataSequence}
    (h : t.occurrences ⊆ s.occurrences) (hns : noSelfDep s) : noSelfDep t :=
  fun m hm => hns m (h hm)

lemma CleanOf_of_subset {X : String} {s t : DataSequence}
    (h : t.occurrences ⊆ s.occurrences) (hc : CleanOf X s) : CleanOf X t := by
  refine ⟨?_, fun m hm => hc.2 m (h hm)⟩
  intro hmem
  obtain ⟨m, hm, hid⟩ := (mem_occIdsList _ _).mp hmem
  exact hc.1 ((mem_occIdsList _ _).mpr ⟨m, h hm, hid⟩)

lemma foldl_revoke_subset (fuel : Nat)
    (hstep : ∀ (t : DataSequence) (y : String),
      (revokeFuel fuel t y true).occurrences ⊆ t.occurrences) :
    ∀ (L : List String) (acc : DataSequence),
    (L.foldl (fun a y => revokeFuel fuel a y true) acc).occurrences ⊆
      acc.occurrences := by
  intro L
  induction L with
  | nil => intro acc; exact fun m hm => hm
  | cons y L ih =>
    intro acc
    intro m hm
    exact hstep acc y (ih (revokeFuel fuel acc y true) hm)

lemma occ_revokeFuel_subset : ∀ (fuel : Nat) (s : DataSequence) (mid : String)
    (c : Bool), (revokeFuel fuel s mid c).occurrences ⊆ s.occurrences := by
  intro fuel
  induction fuel with
  | zero => intro s mid c; exact fun m hm => hm
  | succ n ih =>
    intro s mid c
    simp only [revokeFuel]
    by_cases hc : c
    · subst hc
      simp only [if_true]
      intro m hm
      have h2 := foldl_revoke_subset n (fun t y => ih t y true)
        (collectToRevoke { s with consolidated := false } mid)
        (removeRevoked { s with consolidated := false } mid) hm
      exact occ_removeRevoked_subset { s with consolidated := false } mid h2
    · simp only [hc, Bool.false_eq_true, if_false]
      intro m hm
      exact occ_removeRevoked_subset { s with consolidated := false } mid hm

lemma occIds_toFinset_subset {s t : DataSequence}
    (h : s.occurrences ⊆ t.occurrences) :
    (occIdsList s).toFinset ⊆ (occIdsList t).toFinset := by
  intro x hx
  rw [List.mem_toFinset] at hx ⊢
  exact occIds_subset_of_occ_subset h hx

lemma removeRevoked_ids_in_erase (s : DataSequence) (mid : String)
    (hns : noSelfDep s) :
    (occIdsList (removeRevoked s mid)).toFinset ⊆
      ((occIdsList s).toFinset).erase mid := by
  intro x hx
  rw [List.mem_toFinset] at hx
  rw [Finset.mem_erase]
  constructor
  · intro hxm
    exact not_mem_occIds_removeRevoked s mid hns (hxm ▸ hx)
  · rw [List.mem_toFinset]
    exact occIds_subset_of_occ_subset (occ_removeRevoked_subset s mid) hx

lemma revoke_fold_core (n : Nat)
    (IH : ∀ (s : DataSequence) (mid : String), noSelfDep s →
      revokeMeasure s mid + 1 ≤ n →
      CleanOf mid (revokeFuel n s mid true) ∧
      (∀ m ∈ s.occurrences, m ∉ (revokeFuel n s mid true).occurrences →
        CleanOf m.id (revokeFuel n s mid true))) :
    ∀ (L : List String) (E : Finset String) (acc : DataSequence),
    noSelfDep acc →
    (occIdsList acc).toFinset ⊆ E → (∀ y ∈ L, y ∈ E) → E.card ≤ n →
    (∀ y ∈ L, CleanOf y (L.foldl (fun a z => revokeFuel n a z true) acc)) ∧
    (∀ m ∈ acc.occurrences,
      m ∉ (L.foldl (fun a z => revokeFuel n a z true) acc).occurrences →
      CleanOf m.id (L.foldl (fun a z => revokeFuel n a z true) acc)) := by
  intro L
  induction L with
  | nil =>
    intro E acc _ _ _ _
    exact ⟨by simp, fun m hm hnm => absurd hm hnm⟩
  | cons y L ih =>
    intro E acc hns hsub hL hcard
    have hyE : y ∈ E := hL y (List.mem_cons_self _ _)
    have hfuel : revokeMeasure acc y + 1 ≤ n := by
      have h1 : ((occIdsList acc).toFinset.erase y).card ≤ (E.erase y).card :=
        Finset.card_le_card (Finset.erase_subset_erase _ hsub)
      have h2 : (E.erase y).card = E.card - 1 := Finset.card_erase_of_mem hyE
      have h3 : 1 ≤ E.card := Finset.card_pos.mpr ⟨y, hyE⟩
      have h4 : revokeMeasure acc y = ((occIdsList acc).toFinset.erase y).card :=
        rfl
      omega
    obtain ⟨hcleanY, hremstep⟩ := IH acc y hns hfuel
    have hsubacc : (revokeFuel n acc y true).occurrences ⊆ acc.occurrences :=
      occ_revokeFuel_subset n acc y true
    have htail := ih E (revokeFuel n acc y true)
      (noSelfDep_of_subset hsubacc hns)
      ((occIds_toFinset_subset hsubacc).trans hsub)
      (fun z hz => hL z (List.mem_cons_of_mem _ hz)) hcard
    have hfoldmono : ((L.foldl (fun a z => revokeFuel n a z true)
          (revokeFuel n acc y true)).occurrences) ⊆
        (revokeFuel n acc y true).occurrences :=
      foldl_revoke_subset n (fun t z => occ_revokeFuel_subset n t z true) L _
    rw [List.foldl_cons]
    constructor
    · intro y2 hy2
      rcases List.mem_cons.mp hy2 with rfl | hy2L
      · exact CleanOf_of_subset hfoldmono hcleanY
      · exact htail.1 y2 hy2L
    · intro m hm hnm
      by_cases hm2 : m ∈ (revokeFuel n acc y true).occurrences
      · exact htail.2 m hm2 hnm
      · exact CleanOf_of_subset hfoldmono (hremstep m hm hm2)

lemma revoke_core : ∀ (n : Nat) (s : DataSequence) (mid : String),
    noSelfDep s → revokeMeasure s mid + 1 ≤ n →
    CleanOf mid (revokeFuel n s mid true) ∧
    (∀ m ∈ s.occurrences, m ∉ (revokeFuel n s mid true).occurrences →
      CleanOf m.id (revokeFuel n s mid true)) := by
  intro n
  induction n with
  | zero => intro s mid _ hfuel; omega
  | succ n IHn =>
    intro s mid hns hfuel
    have hunfold : revokeFuel (n + 1) s mid true =
        (collectToRevoke { s with consolidated := false } mid).foldl
          (fun a z => revokeFuel n a z true)
          (removeRevoked { s with consolidated := false } mid) := by
      simp only [revokeFuel, if_true]
    have hnseq : noSelfDep ({ s with consolidated := false } : DataSequence) :=
      hns
    have hsub : (occIdsList (removeRevoked
        { s with consolidated := false } mid)).toFinset ⊆
        ((occIdsList s).toFinset).erase mid :=
      removeRevoked_ids_in_erase _ mid hnseq
    have hL : ∀ y ∈ collectToRevoke { s with consolidated := false } mid,
        y ∈ ((occIdsList s).toFinset).erase mid := by
      intro y hy
      obtain ⟨m, hm, hdep, rfl⟩ := (mem_collectToRevoke _ mid y).mp hy
      rw [Finset.mem_erase]
      refine ⟨?_, List.mem_toFinset.mpr ((mem_occIdsList _ _).mpr ⟨m, hm, rfl⟩)⟩
      intro heq
      exact hns m hm (heq ▸ hdep)
    have hcard : (((occIdsList s).toFinset).erase mid).card ≤ n := by
      have : revokeMeasure s mid = (((occIdsList s).toFinset).erase mid).card :=
        rfl
      omega
    have hnsrem : noSelfDep (removeRevoked
        { s with consolidated := false } mid) :=
      noSelfDep_of_subset (occ_removeRevoked_subset _ mid) hnseq
    obtain ⟨fca, fcb⟩ := revoke_fold_core n IHn
      (collectToRevoke { s with consolidated := false } mid)
      (((occIdsList s).toFinset).erase mid)
      (removeRevoked { s with consolidated := false } mid)
      hnsrem hsub hL hcard
    have hfoldmono : ((collectToRevoke { s with consolidated := false }
          mid).foldl (fun a z => revokeFuel n a z true)
          (removeRevoked { s with consolidated := false } mid)).occurrences ⊆
        (removeRevoked { s with consolidated := false } mid).occurrences :=
      foldl_revoke_subset n (fun t z => occ_revokeFuel_subset n t z true) _ _
    have hclean : CleanOf mid (revokeFuel (n + 1) s mid true) := by
      rw [hunfold]
      constructor
      · intro hmem
        obtain ⟨m, hm, hid⟩ := (mem_occIdsList _ _).mp hmem
        exact not_mem_occIds_removeRevoked _ mid hnseq
          ((mem_occIdsList _ _).mpr ⟨m, hfoldmono hm, hid⟩)
      · intro m hm hdep
        have hmocc : m ∈ DataSequence.occurrences s :=
          occ_removeRevoked_subset _ mid (hfoldmono hm)
        have hmL : m.id ∈ collectToRevoke
            { s with consolidated := false } mid :=
          (mem_collectToRevoke _ mid m.id).mpr ⟨m, hmocc, hdep, rfl⟩
        have := (fca m.id hmL).1
        exact this ((mem_occIdsList _ _).mpr ⟨m, hm, rfl⟩)
    refine ⟨hclean, ?_⟩
    intro m hm hnm
    by_cases hmr : m ∈ (removeRevoked
        { s with consolidated := false } mid).occurrences
    · rw [hunfold]
      rw [hunfold] at hnm
      exact fcb m hmr hnm
    · have hcond : mid ∉ m.depends_on_matches ∧ m.id = mid := by
        by_contra hcon
        exact hmr ((mem_occ_removeRevoked _ mid m).mpr ⟨hm, hcon⟩)
      rw [hcond.2]
      exact hclean

lemma cascade_clean (n : Nat) (s : DataSequence) (mid : String)
    (hns : noSelfDep s) (hfuel : revokeMeasure s mid + 1 ≤ n) :
    ∀ Y, DependsTrans s mid Y → CleanOf Y (revokeFuel n s mid true) := by
  intro Y h
  induction h with
  | refl => exact (revoke_core n s mid hns hfuel).1
  | @step m Z hm hz _ ihZ =>
    have hnm : m ∉ (revokeFuel n s mid true).occurrences := by
      intro hmem
      exact ihZ.2 m hmem hz
    exact (revoke_core n s mid hns hfuel).2 m hm hnm

lemma mem_regKeys_erase (r : List (String × Match)) (k x : String) :
    x ∈ regKeys (registryErase r k) ↔ x ∈ regKeys r ∧ x ≠ k := by
  simp only [registryErase, regKeys, List.mem_map, List.mem_filter]
  constructor
  · rintro ⟨p, ⟨hp, hne⟩, rfl⟩
    exact ⟨⟨p, hp, rfl⟩, by simpa using hne⟩
  · rintro ⟨⟨p, hp, rfl⟩, hne⟩
    exact ⟨p, ⟨hp, by simpa using hne⟩, rfl⟩

lemma removeRevoked_cond (s : DataSequence) (mid : String) (hns : noSelfDep s) :
    (s.elements.any fun e => e.matchList.any fun m =>
      mid ∉ m.depends_on_matches && m.id == mid) = true ↔
    mid ∈ occIdsList s := by
  simp only [List.any_eq_true, Bool.and_eq_true, beq_iff_eq, decide_eq_true_eq,
    mem_occIdsList]
  constructor
  · rintro ⟨e, he, m, hm, _, hid⟩
    exact ⟨m, (mem_occurrences _ _).mpr ⟨e, he, hm⟩, hid⟩
  · rintro ⟨m, hm, hid⟩
    obtain ⟨e, he, hme⟩ := (mem_occurrences _ _).mp hm
    exact ⟨e, he, m, hme, hid ▸ hns m hm, hid⟩

lemma mem_occIds_removeRevoked (s : DataSequence) (mid : String) (x : String)
    (hns : noSelfDep s) :
    x ∈ occIdsList (removeRevoked s mid) ↔ x ∈ occIdsList s ∧ x ≠ mid := by
  constructor
  · intro hx
    obtain ⟨m, hm, hid⟩ := (mem_occIdsList _ _).mp hx
    refine ⟨(mem_occIdsList _ _).mpr
      ⟨m, occ_removeRevoked_subset s mid hm, hid⟩, ?_⟩
    intro heq
    exact not_mem_occIds_removeRevoked s mid hns (heq ▸ hx)
  · rintro ⟨hx, hne⟩
    obtain ⟨m, hm, hid⟩ := (mem_occIdsList _ _).mp hx
    refine (mem_occIdsList _ _).mpr ⟨m, ?_, hid⟩
    refine (mem_occ_removeRevoked s mid m).mpr ⟨hm, ?_⟩
    intro ⟨_, h2⟩
    exact hne (hid ▸ h2 ▸ rfl)

lemma registryInv_removeRevoked (s : DataSequence) (mid : String)
    (hns : noSelfDep s) (hinv : registryInv s) :
    registryInv (removeRevoked s mid) := by
  by_cases hc : (s.elements.any fun e => e.matchList.any fun m =>
      mid ∉ m.depends_on_matches && m.id == mid) = true
  · have hmid : mid ∈ occIdsList s := (removeRevoked_cond s mid hns).mp hc
    have hreg : (removeRevoked s mid).match_by_id =
        registryErase s.match_by_id mid := by
      rw [removeRevoked, hc]
      simp
    constructor
    · intro x hx
      rw [hreg, mem_regKeys_erase] at hx
      exact (mem_occIds_removeRevoked s mid x hns).mpr ⟨hinv.1 hx.1, hx.2⟩
    · intro x hx
      rw [mem_occIds_removeRevoked s mid x hns] at hx
      rw [hreg, mem_regKeys_erase]
      exact ⟨hinv.2 hx.1, hx.2⟩
  · have hmid : mid ∉ occIdsList s := fun h =>
      hc ((removeRevoked_cond s mid hns).mpr h)
    have hreg : (removeRevoked s mid).match_by_id = s.match_by_id := by
      rw [removeRevoked]
      simp only [hc, Bool.false_eq_true, if_false]
    constructor
    · intro x hx
      rw [hreg] at hx
      refine (mem_occIds_removeRevoked s mid x hns).mpr ⟨hinv.1 hx, ?_⟩
      intro heq
      exact hmid (heq ▸ hinv.1 hx)
    · intro x hx
      rw [hreg]
      exact hinv.2 ((mem_occIds_removeRevoked s mid x hns).mp hx).1

lemma registryInv_revokeFuel : ∀ (n : Nat) (s : DataSequence) (mid : String)
    (c : Bool), noSelfDep s → registryInv s →
    registryInv (revokeFuel n s mid c) := by
  intro n
  induction n with
  | zero => intro s mid c _ hinv; exact hinv
  | succ n ih =>
    intro s mid c hns hinv
    have hinv0 : registryInv ({ s with consolidated := false } : DataSequence) :=
      hinv
    have hrem : registryInv (removeRevoked
        { s with consolidated := false } mid) :=
      registryInv_removeRevoked _ mid hns hinv0
    have hnsrem : noSelfDep (removeRevoked
        { s with consolidated := false } mid) :=
      noSelfDep_of_subset (occ_removeRevoked_subset _ mid) hns
    simp only [revokeFuel]
    by_cases hcc : c
    · subst hcc
      simp only [if_true]
      have haux : ∀ (L : List String) (acc : DataSequence), noSelfDep acc →
          registryInv acc →
          registryInv (L.foldl (fun a y => revokeFuel n a y true) acc) := by
        intro L
        induction L with
        | nil => intro acc _ hi; exact hi
        | cons y L ihL =>
          intro acc hnsa hia
          rw [List.foldl_cons]
          exact ihL (revokeFuel n acc y true)
            (noSelfDep_of_subset (occ_revokeFuel_subset n acc y true) hnsa)
            (ih acc y true hnsa hia)
      exact haux _ _ hnsrem hrem
    · simp only [hcc, Bool.false_eq_true, if_false]
      exact hrem

/-- C2: in a state where B's direct dependency list contains A's id,
cascading revocation of A's id removes A, B and every match whose
dependency chain reaches A from every position and from the registry;
non-cascading revocation removes exactly the occurrences carrying A's id
(and A's registry entry), leaving B stored with its dangling reference
to the now-missing id. Stated for every well-formed state (no stored
match depends on its own id, registry consistent with positions) and
every sufficient fuel. -/
theorem revoke_match_cascade (s : DataSequence) (A B : Match) (fuel : Nat)
    (hns : noSelfDep s) (hinv : registryInv s)
    (hA : A ∈ s.occurrences) (hB : B ∈ s.occurrences)
    (hdep : A.id ∈ B.depends_on_matches)
    (hfuel : revokeMeasure s A.id + 1 ≤ fuel) :
    (A.id ∉ occIdsList (revokeFuel fuel s A.id true) ∧
     A.id ∉ regKeys (revokeFuel fuel s A.id true).match_by_id ∧
     B.id ∉ occIdsList (revokeFuel fuel s A.id true) ∧
     B.id ∉ regKeys (revokeFuel fuel s A.id true).match_by_id ∧
     (∀ Y, DependsTrans s A.id Y →
       Y ∉ occIdsList (revokeFuel fuel s A.id true) ∧
       Y ∉ regKeys (revokeFuel fuel s A.id true).match_by_id)) ∧
    ((∀ m, m ∈ (revokeFuel 1 s A.id false).occurrences ↔
        m ∈ s.occurrences ∧ m.id ≠ A.id) ∧
     B ∈ (revokeFuel 1 s A.id false).occurrences ∧
     A.id ∈ B.depends_on_matches ∧
     (∀ x, x ∈ regKeys (revokeFuel 1 s A.id false).match_by_id ↔
        x ∈ regKeys s.match_by_id ∧ x ≠ A.id)) := by
  have hinvr := registryInv_revokeFuel fuel s A.id true hns hinv
  have hkey : ∀ Y, Y ∉ occIdsList (revokeFuel fuel s A.id true) →
      Y ∉ regKeys (revokeFuel fuel s A.id true).match_by_id :=
    fun Y h hk => h (hinvr.1 hk)
  have htrans : ∀ Y, DependsTrans s A.id Y →
      Y ∉ occIdsList (revokeFuel fuel s A.id true) :=
    fun Y hY => (cascade_clean fuel s A.id hns hfuel Y hY).1
  have hBtrans : DependsTrans s A.id B.id :=
    DependsTrans.step hB hdep DependsTrans.refl
  have hAr := htrans A.id DependsTrans.refl
  have hBr := htrans B.id hBtrans
  have hBne : B.id ≠ A.id := by
    intro heq
    apply hns B hB
    rw [heq]
    exact hdep
  have hrw1 : revokeFuel 1 s A.id false =
      removeRevoked { s with consolidated := false } A.id := by
    simp [revokeFuel]
  have hociff : ∀ m, m ∈ (revokeFuel 1 s A.id false).occurrences ↔
      m ∈ s.occurrences ∧ m.id ≠ A.id := by
    intro m
    rw [hrw1, mem_occ_removeRevoked]
    constructor
    · rintro ⟨hm, hcond⟩
      refine ⟨hm, ?_⟩
      intro heq
      exact hcond ⟨heq ▸ hns m hm, heq⟩
    · rintro ⟨hm, hne⟩
      exact ⟨hm, fun h => hne h.2⟩
  have hcond : (({ s with consolidated := false } :
        DataSequence).elements.any fun e => e.matchList.any fun m =>
        A.id ∉ m.depends_on_matches && m.id == A.id) = true :=
    (removeRevoked_cond { s with consolidated := false } A.id hns).mpr
      ((mem_occIdsList _ _).mpr ⟨A, hA, rfl⟩)
  have hreg : (removeRevoked { s with consolidated := false }
      A.id).match_by_id = registryErase s.match_by_id A.id := by
    rw [removeRevoked, hcond]
    simp
  refine ⟨⟨hAr, hkey _ hAr, hBr, hkey _ hBr,
    fun Y hY => ⟨htrans Y hY, hkey Y (htrans Y hY)⟩⟩,
    hociff, (hociff B).mpr ⟨hB, hBne⟩, hdep, ?_⟩
  intro x
  rw [hrw1, hreg, mem_regKeys_erase]

/-- Witness for C2 on the concrete two-match fixture: cascading
revocation of A removes both ids everywhere; non-cascading revocation
leaves B stored. -/
theorem revoke_match_cascade_witness :
    mA.id ∉ occIdsList (revokeFuel 2 sAB mA.id true) ∧
    mB.id ∉ occIdsList (revokeFuel 2 sAB mA.id true) ∧
    mB.id ∉ regKeys (revokeFuel 2 sAB mA.id true).match_by_id ∧
    mB ∈ (revokeFuel 1 sAB mA.id false).occurrences :=
  ⟨(revoke_match_cascade sAB mA mB 2 (by decide) (by decide) (by decide)
      (by decide) (by decide) (by decide)).1.1,
   (revoke_match_cascade sAB mA mB 2 (by decide) (by decide) (by decide)
      (by decide) (by decide) (by decide)).1.2.2.1,
   (revoke_match_cascade sAB mA mB 2 (by decide) (by decide) (by decide)
      (by decide) (by decide) (by decide)).1.2.2.2.1,
   (revoke_match_cascade sAB mA mB 2 (by decide) (by decide) (by decide)
      (by decide) (by decide) (by decide)).2.2.1⟩

lemma mem_occ_addAtPos_iff (s : DataSequence) (i : Nat) (m x : Match) :
    x ∈ (s.addAtPos i m).2.occurrences ↔
    x ∈ s.occurrences ∨ ((s.addAtPos i m).1 = true ∧ x = m) := by
  rw [DataSequence.addAtPos]
  cases hg : s.elements.get? i with
  | none => simp
  | some e =>
    by_cases hc : e.contains_match m
    · simp [hc]
    · have hi : i < s.elements.length := (List.get?_eq_some.mp hg).1
      have he : s.elements[i] = e := by
        have h2 := (List.get?_eq_some.mp hg).2
        simpa [List.get_eq_getElem] using h2
      simp only [hc, Bool.false_eq_true, if_false]
      constructor
      · intro hx
        obtain ⟨e2, he2, hxe⟩ := (mem_occurrences _ _).mp hx
        obtain ⟨n, hn, rfl⟩ := List.mem_iff_getElem.mp he2
        have hn2 : n < s.elements.length := by simpa using hn
        by_cases hni : i = n
        · subst hni
          rw [List.getElem_set_self (h := hn)] at hxe
          rcases List.mem_append.mp hxe with hx1 | hx2
          · left
            rw [mem_occurrences]
            exact ⟨e, he ▸ List.getElem_mem hi, hx1⟩
          · right
            exact ⟨trivial, List.mem_singleton.mp hx2⟩
        · rw [List.getElem_set_ne hni hn] at hxe
          left
          rw [mem_occurrences]
          exact ⟨s.elements[n], List.getElem_mem hn2, hxe⟩
      · rintro (hx | ⟨-, hxm⟩)
        · obtain ⟨e2, he2, hxe⟩ := (mem_occurrences _ _).mp hx
          obtain ⟨n, hn, rfl⟩ := List.mem_iff_getElem.mp he2
          rw [mem_occurrences]
          by_cases hni : i = n
          · subst hni
            refine ⟨{ e with matchList := e.matchList ++ [m] },
              mem_set_self _ _ _ hn, ?_⟩
            rw [he] at hxe
            exact List.mem_append_left _ hxe
          · exact ⟨s.elements[n], mem_set_of_ne _ _ _ _ hn hni, hxe⟩
        · rw [hxm, mem_occurrences]
          refine ⟨{ e with matchList := e.matchList ++ [m] },
            mem_set_self _ _ _ hi, ?_⟩
          exact List.mem_append_right _ (List.mem_singleton.mpr rfl)

lemma mem_regKeys_addAtPos_iff (s : DataSequence) (i : Nat) (m : Match)
    (x : String) :
    x ∈ regKeys (s.addAtPos i m).2.match_by_id ↔
    x ∈ regKeys s.match_by_id ∨ ((s.addAtPos i m).1 = true ∧ x = m.id) := by
  rw [DataSequence.addAtPos]
  cases hg : s.elements.get? i with
  | none => simp
  | some e =>
    by_cases hc : e.contains_match m
    · simp [hc]
    · simp only [hc, Bool.false_eq_true, if_false]
      rw [mem_regKeys_insert]
      simp

lemma registryInv_addAtPos (s : DataSequence) (i : Nat) (m : Match)
    (hinv : registryInv s) : registryInv (s.addAtPos i m).2 := by
  constructor
  · intro x hx
    rcases (mem_regKeys_addAtPos_iff s i m x).mp hx with h | ⟨hb, rfl⟩
    · rcases (mem_occIdsList s x).mp (hinv.1 h) with ⟨m2, hm2, hid⟩
      exact (mem_occIdsList _ x).mpr
        ⟨m2, (mem_occ_addAtPos_iff s i m m2).mpr (Or.inl hm2), hid⟩
    · exact (mem_occIdsList _ _).mpr
        ⟨m, (mem_occ_addAtPos_iff s i m m).mpr (Or.inr ⟨hb, rfl⟩), rfl⟩
  · intro x hx
    obtain ⟨m2, hm2, hid⟩ := (mem_occIdsList _ x).mp hx
    rcases (mem_occ_addAtPos_iff s i m m2).mp hm2 with h | ⟨hb, hm2m⟩
    · exact (mem_regKeys_addAtPos_iff s i m x).mpr
        (Or.inl (hinv.2 ((mem_occIdsList s x).mpr ⟨m2, h, hid⟩)))
    · refine (mem_regKeys_addAtPos_iff s i m x).mpr (Or.inr ⟨hb, ?_⟩)
      rw [← hid, hm2m]

lemma noSelfDep_addAtPos (s : DataSequence) (i : Nat) (m : Match)
    (hns : noSelfDep s) (hmdep : m.id ∉ m.depends_on_matches) :
    noSelfDep (s.addAtPos i m).2 := by
  intro m2 hm2
  rcases (mem_occ_addAtPos_iff s i m m2).mp hm2 with h | ⟨-, hm2m⟩
  · exact hns m2 h
  · rw [hm2m]
    exact hmdep

lemma foldl_inv {a b : Type} (P : a → Prop) (f : a → b → a)
    (hstep : ∀ x y, P x → P (f x y)) :
    ∀ (l : List b) (x : a), P x → P (l.foldl f x) := by
  intro l
  induction l with
  | nil => intro x hx; exact hx
  | cons y l ih => intro x hx; exact ih (f x y) (hstep x y hx)

lemma inv_add_match (s : DataSequence) (m : Match) (b : Bool)
    (s2 : DataSequence) (hfresh : m.id ∉ occIdsList s)
    (h : s.add_match m = some (b, s2)) (hinv : registryInv s)
    (hns : noSelfDep s) : registryInv s2 ∧ noSelfDep s2 := by
  rw [DataSequence.add_match] at h
  by_cases hdp : m.dependencies_present s = true
  · rw [if_pos hdp] at h
    by_cases hb : m.start_idx + m.size ≤ s.elements.length
    · rw [if_pos hb] at h
      have hmdep : m.id ∉ m.depends_on_matches := by
        intro hcon
        exact hfresh ((dependencies_present_iff m s).mp hdp m.id hcon)
      have hfold := Option.some.inj h
      have hs2 : s2 = ((List.range m.size).foldl (fun acc idx =>
          let r := acc.2.addAtPos (m.start_idx + idx) m
          (acc.1 || r.1, r.2)) (false, { s with consolidated := false })).2 := by
        rw [hfold]
      rw [hs2]
      have hstep : ∀ (x : Bool × DataSequence) (y : Nat),
          (registryInv x.2 ∧ noSelfDep x.2) →
          (registryInv ((fun acc idx =>
            let r := acc.2.addAtPos (m.start_idx + idx) m
            (acc.1 || r.1, r.2)) x y).2 ∧
          noSelfDep ((fun acc idx =>
            let r := acc.2.addAtPos (m.start_idx + idx) m
            (acc.1 || r.1, r.2)) x y).2) := by
        intro x y hx
        exact ⟨registryInv_addAtPos x.2 _ m hx.1,
          noSelfDep_addAtPos x.2 _ m hx.2 hmdep⟩
      have := foldl_inv (fun p : Bool × DataSequence =>
        registryInv p.2 ∧ noSelfDep p.2) _ hstep (List.range m.size)
        (false, { s with consolidated := false }) ⟨hinv, hns⟩
      exact this
    · rw [if_neg hb] at h
      exact absurd h (by simp)
  · rw [if_neg hdp] at h
    have h2 := Option.some.inj h
    obtain ⟨-, hs2⟩ := Prod.mk.inj h2
    rw [← hs2]
    exact ⟨hinv, hns⟩

lemma regKeys_insert_foldl : ∀ (l : List Match) (r : List (String × Match))
    (x : String),
    x ∈ regKeys (l.foldl (fun r2 m => registryInsert r2 m.id m) r) ↔
    x ∈ regKeys r ∨ ∃ m ∈ l, m.id = x := by
  intro l
  induction l with
  | nil => intro r x; simp
  | cons m ms ih =>
    intro r x
    rw [List.foldl_cons, ih, mem_regKeys_insert]
    constructor
    · rintro ((h | rfl) | ⟨m2, hm2, rfl⟩)
      · exact Or.inl h
      · exact Or.inr ⟨m, List.mem_cons_self _ _, rfl⟩
      · exact Or.inr ⟨m2, List.mem_cons_of_mem _ hm2, rfl⟩
    · rintro (h | ⟨m2, hm2, rfl⟩)
      · exact Or.inl (Or.inl h)
      · rcases List.mem_cons.mp hm2 with rfl | hm2t
        · exact Or.inl (Or.inr rfl)
        · exact Or.inr ⟨m2, hm2t, rfl⟩

lemma regKeys_nested_foldl : ∀ (es : List DataElement)
    (r : List (String × Match)) (x : String),
    x ∈ regKeys (es.foldl (fun r2 e => e.matchList.foldl
      (fun r3 m => registryInsert r3 m.id m) r2) r) ↔
    x ∈ regKeys r ∨ ∃ e ∈ es, ∃ m ∈ e.matchList, m.id = x := by
  intro es
  induction es with
  | nil => intro r x; simp
  | cons e es ih =>
    intro r x
    rw [List.foldl_cons, ih, regKeys_insert_foldl]
    constructor
    · rintro ((h | ⟨m, hm, rfl⟩) | ⟨e2, he2, m, hm, rfl⟩)
      · exact Or.inl h
      · exact Or.inr ⟨e, List.mem_cons_self _ _, m, hm, rfl⟩
      · exact Or.inr ⟨e2, List.mem_cons_of_mem _ he2, m, hm, rfl⟩
    · rintro (h | ⟨e2, he2, m, hm, rfl⟩)
      · exact Or.inl (Or.inl h)
      · rcases List.mem_cons.mp he2 with rfl | he2t
        · exact Or.inl (Or.inr ⟨m, hm, rfl⟩)
        · exact Or.inr ⟨e2, he2t, m, hm, rfl⟩

lemma from_string_registryInv (text : String) (ids : List String) :
    registryInv (DataSequence.from_string text ids) := by
  constructor
  · intro x hx
    rw [DataSequence.from_string] at hx
    simp only [] at hx
    rw [regKeys_nested_foldl] at hx
    rcases hx with h | ⟨e, he, m, hm, rfl⟩
    · simp [regKeys] at h
    · exact (mem_occIdsList _ _).mpr
        ⟨m, (mem_occurrences _ _).mpr ⟨e, he, hm⟩, rfl⟩
  · intro x hx
    obtain ⟨m, hm, hid⟩ := (mem_occIdsList _ x).mp hx
    obtain ⟨e, he, hme⟩ := (mem_occurrences _ _).mp hm
    rw [DataSequence.from_string]
    simp only []
    rw [regKeys_nested_foldl]
    exact Or.inr ⟨e, he, m, hme, hid⟩

lemma from_string_noSelfDep (text : String) (ids : List String) :
    noSelfDep (DataSequence.from_string text ids) := by
  intro m hm
  obtain ⟨e, he, hme⟩ := (mem_occurrences _ _).mp hm
  rw [DataSequence.from_string] at he
  simp only [List.mem_map] at he
  obtain ⟨p, _, rfl⟩ := he
  simp only [List.mem_singleton] at hme
  rw [hme]
  simp

/-- C10: for every sequence built by `from_string` and evolved by any
interleaving of non-raising `add_match` calls (with fresh uuids) and
`revoke_match` calls, the registry keys are exactly the match ids stored
in the positions: nothing is registered without being stored, and
nothing survives in a position after being dropped from the registry. -/
theorem registry_position_consistency (text : String) (ids : List String)
    (s : DataSequence)
    (hevol : Relation.ReflTransGen SeqStep
      (DataSequence.from_string text ids) s) :
    ∀ x, x ∈ regKeys s.match_by_id ↔ x ∈ occIdsList s := by
  have hP : registryInv s ∧ noSelfDep s := by
    induction hevol with
    | refl =>
      exact ⟨from_string_registryInv text ids, from_string_noSelfDep text ids⟩
    | tail _ hstep ih =>
      cases hstep with
      | add m b t2 hfresh hadd =>
        exact inv_add_match _ m b _ hfresh hadd ih.1 ih.2
      | revoke mid fuel c =>
        exact ⟨registryInv_revokeFuel fuel _ mid c ih.2 ih.1,
          noSelfDep_of_subset (occ_revokeFuel_subset fuel _ mid c) ih.2⟩
  intro x
  exact ⟨fun h => hP.1.1 h, fun h => hP.1.2 h⟩

/-- Witness for C10: the one-character sequence, after revoking its only
match, still satisfies the consistency equivalence at the revoked id. -/
theorem registry_position_consistency_witness :
    "i0" ∈ regKeys (revokeFuel 1 (DataSequence.from_string "a" ["i0"])
        "i0" true).match_by_id ↔
    "i0" ∈ occIdsList (revokeFuel 1 (DataSequence.from_string "a" ["i0"])
        "i0" true) :=
  registry_position_consistency "a" ["i0"] _
    (Relation.ReflTransGen.single
      (SeqStep.revoke (DataSequence.from_string "a" ["i0"]) "i0" 1 true)) "i0"
